import Mathlib

/-!
FTP_Client: command grammar engine, response framing, passive-mode address and
session operations

A shallow embedding of the C++ sources under `FTP_Client/`.

Conventions of the embedding

* A C string (`const char*`) is the list of its characters before the
  terminating NUL (`CStr`); a `char` is a `Char`.
* A function that may throw returns `Except Err _`; every `throw` of the
  source has its own constructor of `Err`.
* `int` and `long long` values are `Int`; where the source can leave the
  range of the machine type the embedding says so explicitly.
* Handlers (`std::function<void(const Parameter*)>`) are named by a handler
  identifier; an environment `run` says whether a handler returns or throws,
  and every invocation is recorded in a dispatch log.
-/

namespace FTPClient

/-- A C string: the characters before the terminating NUL. -/
abbrev CStr := List Char

/-- The exceptions thrown by the sources, one constructor per `throw`. -/
inductive Err where
  /-- utils.cpp: "Failed to parse integer: invalid character". -/
  | atoi_invalid_character (c : Char)
  /-- utils.cpp: "Failed to parse integer: input length exceeded". -/
  | atoi_length_exceeded
  /-- utils.cpp: "Argument out of range". -/
  | atoi_out_of_range (v : Int)
  /-- CommandInterpreter.cpp: "Invalid parameter type for" the named parameter. -/
  | invalid_parameter_type (name : List Char)
  /-- CommandInterpreter.cpp: "Invalid path name: duplicate / separators aren't allowed". -/
  | path_duplicate_separator
  /-- CommandInterpreter.cpp: "Path too long". -/
  | path_too_long
  /-- CommandInterpreter.cpp: "Invalid character". -/
  | invalid_character (c : Char)
  /-- CommandInterpreter.cpp: "Failed to parse command: input too long". -/
  | input_too_long
  /-- CommandInterpreter.cpp: "Wrong command". -/
  | wrong_command
  /-- CommandInterpreter.cpp: a write past `pms[9]` (undefined behaviour in the source). -/
  | pms_overrun
  /-- An exception thrown by a handler, named by a code. -/
  | handler_failed (code : Nat)
  /-- FTPClient.cpp: "logout failed". -/
  | logout_failed
  /-- FTPClient.cpp: "login failed". -/
  | login_failed
  /-- FTPClient.cpp: "Failed" (a reply other than 150, or other than 200). -/
  | failed
  /-- FTPClient.cpp: "Failed transfer" (a final reply other than 226). -/
  | failed_transfer
  /-- TCP.cpp: "Connection failed" and the other exceptions of `TCP::connect`. -/
  | connection_failed
  /-- The exception of `VirtualFS::read` for a path that cannot be read. -/
  | file_read_failed
  /-- FTPClient.cpp: `printf(buffer.data())` on a listing with a conversion specification,
  for which no argument was passed (undefined behaviour in the source). -/
  | printf_undefined
  /-- TCPResult.cpp: `validate_recv` throws (socket error or connection interrupted). -/
  | tcp_recv_failed
  /-- TelNetClient.cpp: a write past the 2048-byte line buffer (undefined behaviour in the source). -/
  | line_overrun
  /-- FTPClient.cpp: "Entering passive mode failed". -/
  | pasv_failed
  /-- FTPClient.cpp: "Invalid passive response message". -/
  | pasv_invalid_response
  /-- FTPClient.cpp: "Failed to parse PASV address: too many numbers". -/
  | pasv_too_many_numbers
  /-- FTPClient.cpp: "Failed to parse PASV address: invalid character". -/
  | pasv_invalid_character
  /-- FTPClient.cpp: "Failed to parse PASV address: input too long". -/
  | pasv_input_too_long
  /-- FTPClient.cpp: "Failed to parse PASV address: insufficient numbers". -/
  | pasv_insufficient_numbers
  /-- FTPClient.cpp: an access to `a[i]` with `i` outside `0..5` (undefined behaviour in the source). -/
  | pasv_out_of_bounds (i : Nat)
  deriving DecidableEq, Repr

deriving instance DecidableEq for Except

/-! ## utils.cpp -/

/-- The constant `INT_MAX` of a 32-bit `int`. -/
def INT_MAX : Int := 2147483647

/-- The constant `INT_MIN` of a 32-bit `int`. -/
def INT_MIN : Int := -2147483648

/-- The constant `MAX_INPUT_LEN` of `Utils::my_atoi`. -/
def MAX_INPUT_LEN : Nat := 10

/-- The test `'0' <= c && c <= '9'`. -/
def is_digit (c : Char) : Bool := decide ('0' ≤ c) && decide (c ≤ '9')

/-- The value `c - '0'` of a character. -/
def digit_value (c : Char) : Int := (c.toNat : Int) - 48

/-- The `for` loop of `Utils::my_atoi`: `i` is the loop counter, `input` the
characters from the cursor on; the result is `(result, sgn, input)` at loop exit. -/
def my_atoi_loop : CStr → Nat → Int → Int → Except Err (Int × Int × CStr)
  | [], _, result, sgn => .ok (result, sgn, [])
  | c :: cs, i, result, sgn =>
    if i < MAX_INPUT_LEN then
      if i = 0 ∧ c = '-' then my_atoi_loop cs (i + 1) result (-1)
      else if is_digit c then my_atoi_loop cs (i + 1) (result * 10 + digit_value c) sgn
      else .error (.atoi_invalid_character c)
    else .ok (result, sgn, c :: cs)

/-- The function `Utils::my_atoi`. The accumulator is a `long long`; at most ten
digits are accumulated, so it stays below `10^10` and never overflows. -/
def my_atoi (input : CStr) : Except Err Int :=
  match my_atoi_loop input 0 0 1 with
  | .error e => .error e
  | .ok (result, sgn, rest) =>
    if rest ≠ [] then .error .atoi_length_exceeded
    else
      let result := result * sgn
      if result ≥ INT_MAX ∨ result ≤ INT_MIN then .error (.atoi_out_of_range result)
      else .ok result

/-! ## CommandInterpreter.cpp -/

/-- The constant `CMD_MAX_LENGTH`. -/
def CMD_MAX_LENGTH : Nat := 256

/-- The `for` loop of `validate_path`: `i` is the loop counter, the list holds the
characters from `w` on; the result is what is left at `w` at loop exit. -/
def validate_path_loop : CStr → Nat → Nat → Nat → Except Err CStr
  | [], _, _, _ => .ok []
  | c :: cs, i, dirname_len, folders_count =>
    if i < CMD_MAX_LENGTH then
      if c = '/' then
        if dirname_len = 0 ∧ folders_count ≠ 0 then .error .path_duplicate_separator
        else validate_path_loop cs (i + 1) 0 (folders_count + 1)
      else validate_path_loop cs (i + 1) (dirname_len + 1) folders_count
    else .ok (c :: cs)

/-- The function `validate_path`: returns normally or throws. -/
def validate_path (word : CStr) : Except Err Unit :=
  match validate_path_loop word 0 0 0 with
  | .error e => .error e
  | .ok rest => if rest ≠ [] then .error .path_too_long else .ok ()

/-- The value set `ParameterType` (declared in CommandInterpreter.h, which is not
among the sources; the three values are the ones the sources name). -/
inductive ParameterType where
  | STRING
  | INTEGER
  | PATH
  deriving DecidableEq, Repr

/-- The class `Parameter`: `value_str` is a pointer, `none` standing for `nullptr`. -/
structure Parameter where
  name : CStr
  type : ParameterType
  value_str : Option CStr
  value_int : Int
  deriving DecidableEq, Repr

/-- The constructor `Parameter::Parameter(const char* name, const char* value_str)`. -/
def Parameter.of_str (name value_str : CStr) : Parameter :=
  { name := name, type := ParameterType.STRING, value_str := some value_str, value_int := 0 }

/-- The constructor `Parameter::Parameter(const char* name, int value_int)`. -/
def Parameter.of_int (name : CStr) (value_int : Int) : Parameter :=
  { name := name, type := ParameterType.STRING, value_str := none, value_int := value_int }

/-- The method `Parameter::validate_requested_type`. -/
def Parameter.validate_requested_type (p : Parameter) (type : ParameterType) : Except Err Unit :=
  if p.type ≠ type then .error (.invalid_parameter_type p.name) else .ok ()

/-- The method `Parameter::get_value_str`. -/
def Parameter.get_value_str (p : Parameter) : Except Err (Option CStr) :=
  match p.validate_requested_type ParameterType.STRING with
  | .error e => .error e
  | .ok _ => .ok p.value_str

/-- The method `Parameter::get_value_int`. -/
def Parameter.get_value_int (p : Parameter) : Except Err Int :=
  match p.validate_requested_type ParameterType.INTEGER with
  | .error e => .error e
  | .ok _ => .ok p.value_int

/-- The struct `Token` (declared in CommandInterpreter.h): `literal` is a pointer,
`none` standing for `nullptr`, in which case the token is a parameter slot. -/
structure Token where
  literal : Option CStr
  param_id : Int
  param_name : CStr
  param_type : ParameterType
  deriving DecidableEq, Repr

/-- The struct `Command`: its tokens and its handler `action`, named by a value of `H`. -/
structure Command (H : Type) where
  tokens : List Token
  action : H

/-- What the engine is run against: `run h pms` says whether the handler `h`, called
on the parameter array `pms`, returns or throws; `default_parameter` is the value of
the default constructor `Parameter()` (declared in CommandInterpreter.h), with which
`Parameter pms[10]` is filled. -/
structure Env (H : Type) where
  run : H → List Parameter → Except Err Unit
  default_parameter : Parameter

/-- The library function `strncmp`: the sign of the first difference among the
first `n` characters, the terminating NUL counting as the smallest character. -/
def strncmp : CStr → CStr → Nat → Int
  | _, _, 0 => 0
  | [], [], _ + 1 => 0
  | [], _ :: _, _ + 1 => -1
  | _ :: _, [], _ + 1 => 1
  | a :: as, b :: bs, n + 1 =>
    if a = b then strncmp as bs n else if a.toNat < b.toNat then -1 else 1

/-- The statement `*(param++) = v` on the array `pms`: `param` is the index the
pointer stands at. A write past the end of the array is reported as `pms_overrun`. -/
def write_param (pms : List Parameter) (param : Nat) (v : Parameter) :
    Except Err (List Parameter × Nat) :=
  if param < pms.length then .ok (pms.set param v, param + 1) else .error .pms_overrun

/-- The function `try_match_token`: the result holds the returned `bool`, the array
`pms` and the index of the reference parameter `param` after the call. -/
def try_match_token (tk : Token) (word : CStr) (pms : List Parameter) (param : Nat) :
    Except Err (Bool × List Parameter × Nat) :=
  match tk.literal with
  | some literal => .ok (decide (strncmp literal word CMD_MAX_LENGTH = 0), pms, param)
  | none =>
    match tk.param_type with
    | ParameterType.STRING =>
      match write_param pms param (Parameter.of_str tk.param_name word) with
      | .error e => .error e
      | .ok (pms, param) => .ok (true, pms, param)
    | ParameterType.INTEGER =>
      match my_atoi word with
      | .error e => .error e
      | .ok v =>
        match write_param pms param (Parameter.of_int tk.param_name v) with
        | .error e => .error e
        | .ok (pms, param) => .ok (true, pms, param)
    | ParameterType.PATH =>
      match validate_path word with
      | .error e => .error e
      | .ok _ =>
        match write_param pms param (Parameter.of_str tk.param_name word) with
        | .error e => .error e
        | .ok (pms, param) => .ok (true, pms, param)

/-- The `for` loop and the final test of `try_parse_command`: the second list holds the
words from `words[i]` on, `iter_pms` is the index the pointer of that name stands at. -/
def try_parse_loop : List Token → List CStr → List Parameter → Nat →
    Except Err (Bool × List Parameter)
  | [], [], pms, _ => .ok (true, pms)
  | [], _ :: _, pms, _ => .ok (false, pms)
  | _ :: _, [], pms, _ => .ok (false, pms)
  | tk :: tks, w :: ws, pms, iter_pms =>
    match try_match_token tk w pms iter_pms with
    | .error e => .error e
    | .ok (false, pms, _) => .ok (false, pms)
    | .ok (true, pms, iter_pms) => try_parse_loop tks ws pms iter_pms

/-- The function `try_parse_command`: the returned `bool` and the array `pms` after the call. -/
def try_parse_command {H : Type} (cmd : Command H) (words : List CStr) (pms : List Parameter) :
    Except Err (Bool × List Parameter) :=
  try_parse_loop cmd.tokens words pms 0

/-- The loop of `try_execute` over the commands not tried yet. The first component
is the dispatch log: the handlers invoked, each with the array it was given. -/
def try_execute_loop {H : Type} (env : Env H) :
    List (Command H) → List CStr → List Parameter → List (H × List Parameter) × Except Err Bool
  | [], _, _ => ([], .ok false)
  | cmd :: cmds, words, pms =>
    match try_parse_command cmd words pms with
    | .error e => ([], .error e)
    | .ok (true, pms) =>
      ([(cmd.action, pms)],
        match env.run cmd.action pms with
        | .error e => .error e
        | .ok _ => .ok true)
    | .ok (false, pms) => try_execute_loop env cmds words pms

/-- The function `try_execute` over the registry `commands`. -/
def try_execute {H : Type} (env : Env H) (commands : List (Command H)) (words : List CStr) :
    List (H × List Parameter) × Except Err Bool :=
  try_execute_loop env commands words (List.replicate 10 env.default_parameter)

/-- The function `is_valid_character`. -/
def is_valid_character (c : Char) : Bool :=
  if 'a' ≤ c ∧ c ≤ 'z' then true
  else if 'A' ≤ c ∧ c ≤ 'Z' then true
  else if '0' ≤ c ∧ c ≤ '9' then true
  else if c = '_' then true
  else if c = ' ' then true
  else if c = '/' then true
  else if c = '.' then true
  else false

/-- The `for` loop of `CommandInterpreter::execute`: `i` is the loop counter, `word`
holds the characters between `word` and `iw`; the result is `(word, words, cmd)` at
loop exit. At most 256 characters are stored, so `word[256]` is never overrun. -/
def execute_loop : CStr → Nat → CStr → List CStr → Except Err (CStr × List CStr × CStr)
  | [], _, word, words => .ok (word, words, [])
  | c :: cs, i, word, words =>
    if i < CMD_MAX_LENGTH then
      if !is_valid_character c then .error (.invalid_character c)
      else if c = ' ' then
        if word = [] then execute_loop cs (i + 1) word words
        else execute_loop cs (i + 1) [] (words ++ [word])
      else execute_loop cs (i + 1) (word ++ [c]) words
    else .ok (word, words, c :: cs)

/-- The first part of `CommandInterpreter::execute`, up to the test `if (*cmd)`:
the words of the line, or the exception thrown. -/
def execute_words (cmd : CStr) : Except Err (List CStr) :=
  match execute_loop cmd 0 [] [] with
  | .error e => .error e
  | .ok (word, words, rest) =>
    let words := if word ≠ [] then words ++ [word] else words
    if rest ≠ [] then .error .input_too_long else .ok words

/-- The last part of `CommandInterpreter::execute`, from the test `words.size() == 0`
on: the dispatch log and the outcome for the words handed to `try_execute`. -/
def execute_dispatch {H : Type} (env : Env H) (commands : List (Command H)) (words : List CStr) :
    List (H × List Parameter) × Except Err Unit :=
  if words.length = 0 then ([], .ok ())
  else
    match try_execute env commands words with
    | (log, .error e) => (log, .error e)
    | (log, .ok false) => (log, .error .wrong_command)
    | (log, .ok true) => (log, .ok ())

/-- The function `CommandInterpreter::execute`: the dispatch log and the outcome. -/
def execute {H : Type} (env : Env H) (commands : List (Command H)) (cmd : CStr) :
    List (H × List Parameter) × Except Err Unit :=
  match execute_words cmd with
  | .error e => ([], .error e)
  | .ok words => execute_dispatch env commands words

/-! ## FTPCommandInterpreter.cpp -/

/-- The handlers of FTPCommandInterpreter.cpp. -/
inductive FTPHandler where
  | cmd_login
  | cmd_logout
  | cmd_help
  | cmd_list1
  | cmd_list0
  | cmd_pasv
  | cmd_put
  | cmd_retr
  | cmd_binary
  | cmd_ascii
  deriving DecidableEq, Repr

/-- The token `register_command` makes of a string argument: a literal token. The
fields other than `literal` are not read for such a token. -/
def Token.of_literal (literal : String) : Token :=
  { literal := some literal.toList, param_id := 0, param_name := [], param_type := ParameterType.STRING }

/-- The token `register_command` makes of an argument `Param(id, name, type)`. -/
def Token.of_param (id : Int) (name : String) (type : ParameterType) : Token :=
  { literal := none, param_id := id, param_name := name.toList, param_type := type }

/-- The registry after the constructor `FTPCommandInterpreter::FTPCommandInterpreter`:
the nine `register_command` calls, in their order. -/
def ftp_commands : List (Command FTPHandler) :=
  [ { action := FTPHandler.cmd_login,
      tokens := [Token.of_literal "login", Token.of_param 0 "user" ParameterType.STRING,
        Token.of_param 1 "pass" ParameterType.STRING] },
    { action := FTPHandler.cmd_help, tokens := [Token.of_literal "help"] },
    { action := FTPHandler.cmd_logout, tokens := [Token.of_literal "logout"] },
    { action := FTPHandler.cmd_list1,
      tokens := [Token.of_literal "list", Token.of_param 0 "path" ParameterType.PATH] },
    { action := FTPHandler.cmd_list0, tokens := [Token.of_literal "list"] },
    { action := FTPHandler.cmd_put,
      tokens := [Token.of_literal "put", Token.of_param 0 "path" ParameterType.PATH] },
    { action := FTPHandler.cmd_retr,
      tokens := [Token.of_literal "get", Token.of_param 0 "path" ParameterType.PATH] },
    { action := FTPHandler.cmd_ascii, tokens := [Token.of_literal "ascii"] },
    { action := FTPHandler.cmd_binary, tokens := [Token.of_literal "binary"] } ]

/-- An environment in which every handler returns; the default parameter has an
empty name, a null string and the integer 0. -/
def env_returning (H : Type) : Env H :=
  { run := fun _ _ => .ok (),
    default_parameter := { name := [], type := ParameterType.STRING, value_str := none, value_int := 0 } }

/-- An environment in which `cmd_logout` throws "logout failed", as `FTPClient::logout`
does when the reply to QUIT is not 221, and every other handler returns. -/
def env_logout_fails : Env FTPHandler :=
  { run := fun h _ => if h = FTPHandler.cmd_logout then .error .logout_failed else .ok (),
    default_parameter := (env_returning FTPHandler).default_parameter }

/-- A registry of one pattern: a single literal token of 257 characters `'a'`. -/
def long_literal_commands : List (Command Nat) :=
  [ { action := 7, tokens := [Token.of_literal (String.mk (List.replicate 257 'a'))] } ]

/-! ## TelNetClient.cpp

The transport is the list of the bytes it will deliver, in order; when the list
is exhausted `recv_i8` throws (connection interrupted or timeout). A `char`
buffer is the list of its cells. -/

/-- The size of the line buffers `first_line` and `buffer` of `recv_response`. -/
def LINE_BUFFER_SIZE : Nat := 2048

/-- The C string held by a buffer: its cells before the first NUL. -/
def c_str (buffer : List Char) : CStr := buffer.takeWhile (fun c => c ≠ '\x00')

/-- The `for` loop of `read_line`: `c` is the index the pointer `c` stands at; the
result is the buffer, the index of the cell holding the line feed and the bytes left
in the transport. A write past the end of the buffer is reported as `line_overrun`. -/
def read_line_loop : List Char → List Char → Nat → Except Err (List Char × Nat × List Char)
  | [], _, _ => .error .tcp_recv_failed
  | b :: tcp, buffer, c =>
    if c < buffer.length then
      if b ≠ '\n' then read_line_loop tcp (buffer.set c b) (c + 1)
      else .ok (buffer.set c b, c, tcp)
    else .error .line_overrun

/-- The function `read_line`: the buffer after the call and the bytes left in the transport. -/
def read_line (tcp : List Char) (buffer : List Char) : Except Err (List Char × List Char) :=
  match read_line_loop tcp buffer 0 with
  | .error e => .error e
  | .ok (buffer, c, tcp) =>
    if c + 1 < buffer.length then .ok (buffer.set (c + 1) '\x00', tcp) else .error .line_overrun

/-- The value of a `char` as an `int`: `char` is signed in the target compiler. -/
def char_to_int (c : Char) : Int :=
  if c.toNat < 128 then (c.toNat : Int) else (c.toNat : Int) - 256

/-- The function `response_code_to_int`. -/
def response_code_to_int (code : List Char) : Int :=
  (char_to_int (code.getD 0 '\x00') - 48) * 100 + (char_to_int (code.getD 1 '\x00') - 48) * 10
    + (char_to_int (code.getD 2 '\x00') - 48)

/-- The condition of the `while` loop of `recv_response`. -/
def recv_response_continue (first_line buffer : List Char) : Bool :=
  buffer.getD 0 '\x00' ≠ first_line.getD 0 '\x00' || buffer.getD 1 '\x00' ≠ first_line.getD 1 '\x00'
    || buffer.getD 2 '\x00' ≠ first_line.getD 2 '\x00' || buffer.getD 3 '\x00' ≠ ' '

/-- The `while` loop of `recv_response`. Every iteration takes at least one byte from
the transport, so the number of bytes left bounds the number of iterations: `fuel`
is that number, and when it is used up the transport is empty and `recv_i8` throws.
The result is the lines given to `line_received_callback`, in order, and the bytes
left in the transport at loop exit. -/
def recv_response_loop (first_line : List Char) (fuel : Nat) (tcp buffer : List Char)
    (lines : List CStr) : List CStr × Except Err (List Char) :=
  if recv_response_continue first_line buffer then
    match fuel with
    | 0 => (lines, .error .tcp_recv_failed)
    | fuel + 1 =>
      match read_line tcp buffer with
      | .error e => (lines, .error e)
      | .ok (buffer, tcp) => recv_response_loop first_line fuel tcp buffer (lines ++ [c_str buffer])
  else (lines, .ok tcp)

/-- The method `TelNetClient::recv_response` on the transport `tcp`: the lines given
to `line_received_callback`, and the returned code with the bytes left in the
transport. The callback is an observer: it is taken to return. -/
def recv_response (tcp : List Char) : List CStr × Except Err (Int × List Char) :=
  let first_line := List.replicate LINE_BUFFER_SIZE '\x00'
  let buffer := List.replicate LINE_BUFFER_SIZE '\x00'
  match read_line tcp first_line with
  | .error e => ([], .error e)
  | .ok (first_line, tcp) =>
    if first_line.getD 3 '\x00' = ' ' then
      ([c_str first_line], .ok (response_code_to_int first_line, tcp))
    else
      match recv_response_loop first_line tcp.length tcp buffer [c_str first_line] with
      | (lines, .error e) => (lines, .error e)
      | (lines, .ok tcp) => (lines, .ok (response_code_to_int first_line, tcp))

/-! ## FTPClient.cpp -/

/-- The constant `maxStrLen` of `parse_pasv_addr`. -/
def maxStrLen : Nat := 4 * 6

/-- The value an `int` computation is stored as: reduced to 32 bits, two's complement. -/
def wrap_int32 (v : Int) : Int := (v + 2147483648) % 4294967296 - 2147483648

/-- The `for` loop of `parse_pasv_addr`: the list holds the characters from `buff[k]`
on (an empty list: `buff[k]` is the terminating NUL); the result is `(buff + k, i, a)`
at loop exit. An access to `a[i]` outside the array is reported as `pasv_out_of_bounds`. -/
def parse_pasv_addr_loop : CStr → Nat → Nat → List Int → Except Err (CStr × Nat × List Int)
  | [], k, i, a => if k < maxStrLen then .error .pasv_invalid_character else .ok ([], i, a)
  | c :: cs, k, i, a =>
    if c ≠ ')' ∧ k < maxStrLen then
      if is_digit c then
        if i < a.length then
          parse_pasv_addr_loop cs (k + 1) i (a.set i (wrap_int32 (a.getD i 0 * 10 + digit_value c)))
        else .error (.pasv_out_of_bounds i)
      else if c = ',' then
        if i ≥ 6 then .error .pasv_too_many_numbers
        else parse_pasv_addr_loop cs (k + 1) (i + 1) a
      else .error .pasv_invalid_character
    else .ok (c :: cs, i, a)

/-- The function `parse_pasv_addr`: the array `a` after the call, or the exception. -/
def parse_pasv_addr (buff : CStr) (a : List Int) : Except Err (List Int) :=
  match parse_pasv_addr_loop buff 0 0 a with
  | .error e => .error e
  | .ok (rest, i, a) =>
    if rest.head? ≠ some ')' then .error .pasv_input_too_long
    else if i ≥ 6 then .error .pasv_too_many_numbers
    else if i + 1 < 6 then .error .pasv_insufficient_numbers
    else .ok a

/-- The text `bout() << n` appends for an `int`: its decimal form. -/
def int_to_text (n : Int) : CStr := (toString n).toList

/-- The string literal `line_pfx` of `FTPClient::pasv`. -/
def line_pfx : CStr := "227 Entering Passive Mode (".toList

/-- The part of `FTPClient::pasv` that follows the reply 227: from the line held in
`line_buffer` to the `ip` and `port` that `data_port.connect` is called with. -/
def pasv_address (line_buffer : CStr) : Except Err (CStr × Int) :=
  if strncmp line_pfx line_buffer line_pfx.length ≠ 0 then .error .pasv_invalid_response
  else
    let buff := line_buffer.drop line_pfx.length
    match parse_pasv_addr buff [0, 0, 0, 0, 0, 0] with
    | .error e => .error e
    | .ok a =>
      let ip := int_to_text (a.getD 0 0) ++ ['.'] ++ int_to_text (a.getD 1 0) ++ ['.']
        ++ int_to_text (a.getD 2 0) ++ ['.'] ++ int_to_text (a.getD 3 0)
      let port := wrap_int32 (a.getD 4 0 * 256 + a.getD 5 0)
      .ok (ip, port)

/-! ## FTPClient.cpp: the session

The state of an `FTPClient` with what its two transports and its file system hold.
Console output with a fixed text or a literal format (`std::cout`, `print_line`,
`printf("Opened data port on %s:%i.\n", ...)`) is presentation and is left out: it is
taken to print and return. The call `printf(buffer.data())` of `list`, whose format is
the received listing, is embedded as `printf`. `bout() << a << b << bfin` is the text
`a` followed by `b`. -/

/-- The state of the client and of its collaborators. -/
structure FTPState where
  /-- The field `FTPClient::connected`. -/
  connected : Bool
  /-- The field `TelNetClient::is_connected`. -/
  is_connected : Bool
  /-- The bytes the control transport will deliver; after them `recv_i8` throws. -/
  control : List Char
  /-- The byte strings handed to `tcp.send` on the control transport, in order. -/
  sent : List CStr
  /-- The field `FTPClient::line_buffer`: the last line given to the callback. Its
  declared size (FTPClient.h) is taken to hold every line `recv_response` delivers. -/
  line_buffer : CStr
  /-- The data transport `data_port` holds a connected socket. -/
  data_open : Bool
  /-- The bytes the peer will deliver on the data transport before it closes it. -/
  data_in : List Char
  /-- The bytes handed to `data_port.send`. -/
  data_sent : List Char
  /-- The files of the `VirtualFS`: paths with their contents. -/
  files : List (CStr × List Char)
  /-- What a new control connection will deliver; `none` when `tcp.connect` throws. -/
  next_control : Option (List Char)
  deriving DecidableEq, Repr

/-- Modelled from the spec: `VirtualFS::read` (the class is not among the sources),
"read(path) -> byte_buffer (fails if path absent/unreadable)". -/
def vfs_read (files : List (CStr × List Char)) (path : CStr) : Except Err (List Char) :=
  match files.find? (fun f => f.1 = path) with
  | some f => .ok f.2
  | none => .error .file_read_failed

/-- Modelled from the spec: `VirtualFS::write` (the class is not among the sources),
"write(path, byte_buffer) (creates or overwrites)". -/
def vfs_write (files : List (CStr × List Char)) (path : CStr) (buffer : List Char) :
    List (CStr × List Char) :=
  (path, buffer) :: files.filter (fun f => f.1 ≠ path)

/-- A call of `TelNetClient::recv_response` within the session: the callback
`FTPClient::line_received_callback` copies every line into `line_buffer`. After an
exception of the transport nothing more is delivered. -/
def recv_response_session (s : FTPState) : Except Err Int × FTPState :=
  match recv_response s.control with
  | (lines, .ok (code, rest)) =>
    (.ok code, { s with control := rest, line_buffer := lines.getLastD s.line_buffer })
  | (lines, .error e) =>
    (.error e, { s with control := [], line_buffer := lines.getLastD s.line_buffer })

/-- The method `TelNetClient::send_command`, reached through
`FTPClient::send_command_wrapper`: the command with "\r\n" is handed to `tcp.send`,
whose result is not looked at, then `recv_response` is called. -/
def send_command (command : CStr) (s : FTPState) : Except Err Int × FTPState :=
  recv_response_session { s with sent := s.sent ++ [command ++ ['\r', '\n']] }

/-- The method `TelNetClient::close`. A closed transport delivers nothing. -/
def telnet_close (s : FTPState) : FTPState :=
  { s with is_connected := false, control := [] }

/-- The method `TelNetClient::reconnect`. -/
def reconnect (s : FTPState) : Except Err Unit × FTPState :=
  let s := if s.is_connected then telnet_close s else s
  match s.next_control with
  | none => (.error .connection_failed, { s with control := [] })
  | some bytes =>
    match recv_response_session { s with control := bytes } with
    | (.error e, s) => (.error e, s)
    | (.ok _, s) => (.ok (), { s with is_connected := true })

/-- The method `FTPClient::login`. -/
def login (user pass : CStr) (s : FTPState) : Except Err Unit × FTPState :=
  let r : Except Err Unit × FTPState :=
    if !s.connected then
      match reconnect s with
      | (.error e, s) => (.error e, s)
      | (.ok _, s) => (.ok (), { s with connected := true })
    else (.ok (), s)
  match r with
  | (.error e, s) => (.error e, s)
  | (.ok _, s) =>
    match send_command ("USER ".toList ++ user) s with
    | (.error e, s) => (.error e, s)
    | (.ok code, s) =>
      if code ≠ 331 then (.error .login_failed, s)
      else
        match send_command ("PASS ".toList ++ pass) s with
        | (.error e, s) => (.error e, s)
        | (.ok code, s) =>
          if code ≠ 230 then (.error .login_failed, s) else (.ok (), s)

/-- The method `TCP::close` on `data_port`. -/
def data_close (s : FTPState) : FTPState :=
  { s with data_open := false }

/-- The loop `while ((n = data_port.recv(tmp_buffer, 1024).bytes_count) > 0)` of `list`
and `retr` on the bytes the data transport still holds: every call delivers up to
1024 bytes, which are appended to `buffer`; a call that delivers nothing ends the
loop. Every iteration takes at least one byte, so `fuel`, the number of bytes left,
bounds the iterations. The result is the bytes left and the buffer. -/
def data_recv_all : Nat → List Char → List Char → List Char × List Char
  | 0, data_in, buffer => (data_in, buffer)
  | fuel + 1, data_in, buffer =>
    if (data_in.take 1024).length > 0 then
      data_recv_all fuel (data_in.drop 1024) (buffer ++ data_in.take 1024)
    else (data_in, buffer)

/-- The receive loop of `list` and `retr` followed by `data_port.close()`: the state
after it and the buffer. A transport that is not connected delivers nothing. -/
def data_drain_and_close (s : FTPState) : FTPState × List Char :=
  if s.data_open then
    let r := data_recv_all s.data_in.length s.data_in []
    (data_close { s with data_in := r.1 }, r.2)
  else (data_close s, [])

/-- The end of `list`, `stor` and `retr`: the final reply is read and must be 226. -/
def expect_226 (s : FTPState) : Except Err Unit × FTPState :=
  match recv_response_session s with
  | (.error e, s) => (.error e, s)
  | (.ok code, s) => if code ≠ 226 then (.error .failed_transfer, s) else (.ok (), s)

/-- The library function `printf` called with a format string and no further argument,
as in `printf(buffer.data())`: ordinary characters and "%%" go to the console; any
other conversion specification, or a `'%'` that ends the format, has no argument to
convert, which is undefined behaviour and is reported as `printf_undefined`. -/
def printf : CStr → Except Err Unit
  | [] => .ok ()
  | [c] => if c = '%' then .error .printf_undefined else .ok ()
  | c :: d :: cs =>
    if c = '%' then
      if d = '%' then printf cs else .error .printf_undefined
    else printf (d :: cs)

/-- The method `FTPClient::list`; `none` stands for `path == nullptr`. After the
receive loop and `data_port.close()` the received bytes, NUL-terminated, are the
format string of `printf`; then the final reply is read. -/
def list (path : Option CStr) (s : FTPState) : Except Err Unit × FTPState :=
  let command := match path with
    | none => "LIST".toList
    | some p => "LIST ".toList ++ p
  match send_command command s with
  | (.error e, s) => (.error e, s)
  | (.ok resp, s) =>
    if resp ≠ 150 then (.error .failed, s)
    else
      let r := data_drain_and_close s
      match printf (c_str r.2) with
      | .error e => (.error e, r.1)
      | .ok _ => expect_226 r.1

/-- The method `FTPClient::stor`. -/
def stor (path : CStr) (s : FTPState) : Except Err Unit × FTPState :=
  match vfs_read s.files path with
  | .error e => (.error e, data_close s)
  | .ok buffer =>
    match send_command ("STOR ".toList ++ path) s with
    | (.error e, s) => (.error e, s)
    | (.ok code, s) =>
      if code ≠ 150 then (.error .failed, s)
      else
        expect_226 (data_close
          { s with data_sent := s.data_sent ++ (if s.data_open then buffer else []) })

/-- The method `FTPClient::retr`. -/
def retr (path : CStr) (s : FTPState) : Except Err Unit × FTPState :=
  match send_command ("RETR ".toList ++ path) s with
  | (.error e, s) => (.error e, s)
  | (.ok code, s) =>
    if code ≠ 150 then (.error .failed, s)
    else
      let r := data_drain_and_close s
      expect_226 { r.1 with files := vfs_write r.1.files path r.2 }

/-- A session that is connected, with the data transport open after `pasv`: the
control transport will deliver `control`, the data transport `data`; the file "f"
holds "abc". -/
def session (control data : String) : FTPState :=
  { connected := true, is_connected := true, control := control.toList, sent := [],
    line_buffer := [], data_open := true, data_in := data.toList, data_sent := [],
    files := [("f".toList, "abc".toList)], next_control := none }

/-! ## Notions the statements are written with -/

/-- Two consecutive `'/'` characters occur in the word. -/
def has_double_slash : CStr → Bool
  | c :: d :: cs => (decide (c = '/') && decide (d = '/')) || has_double_slash (d :: cs)
  | _ => false

/-- The maximal runs of non-space characters of a line, in order: spaces are
skipped, then the characters up to the next space or the end make one run. -/
def maximal_runs : CStr → List CStr
  | [] => []
  | c :: cs =>
    if c = ' ' then maximal_runs cs
    else (c :: cs.takeWhile (fun d => d != ' ')) :: maximal_runs (cs.dropWhile (fun d => d != ' '))
termination_by l => l.length
decreasing_by
  · simp
  · have := (List.dropWhile_sublist (fun d => d != ' ') (l := cs)).length_le
    simp only [List.length_cons]
    omega

/-- The bytes of a sequence of lines on the wire: every line followed by a line feed. -/
def wire_lines : List (List Char) → List Char
  | [] => []
  | l :: ls => l ++ '\n' :: wire_lines ls

/-- The line begins with the three code characters `a`, `b`, `c` followed by a space. -/
def begins_with_code (a b c : Char) (line : List Char) : Bool :=
  decide (line.take 4 = [a, b, c, ' '])

/-- The decimal form of a natural number, without leading zeros. -/
def decimal (n : Nat) : CStr := Nat.toDigits 10 n

/-- The text of a PASV address: the numbers in decimal, without leading zeros,
separated by commas. -/
def pasv_text : List Nat → CStr
  | [] => []
  | [n] => decimal n
  | n :: ns => decimal n ++ ',' :: pasv_text ns

/-- The decimal value of a list of digit characters. -/
def decimal_value (ds : List Char) : Int :=
  ds.foldl (fun acc c => acc * 10 + digit_value c) 0

/-- A token accepts a word: a literal token agrees with the word on the first 256
characters of both, a STRING slot takes any word, an INTEGER slot a word that
`my_atoi` parses, a PATH slot a word that `validate_path` accepts. -/
def token_accepts (tk : Token) (word : CStr) : Bool :=
  match tk.literal with
  | some literal => decide (literal.take 256 = word.take 256)
  | none =>
    match tk.param_type with
    | ParameterType.STRING => true
    | ParameterType.INTEGER => (my_atoi word).toBool
    | ParameterType.PATH => (validate_path word).toBool

/-- A pattern matches the words: as many tokens as words, every token accepting its word. -/
def pattern_matches {H : Type} (cmd : Command H) (words : List CStr) : Bool :=
  decide (cmd.tokens.length = words.length) &&
    (List.zip cmd.tokens words).all (fun p => token_accepts p.1 p.2)

/-- Dispatch has stopped with an exception thrown while a pattern was tried: the
outcome is an exception and no handler has been invoked. -/
def pattern_raised {H : Type} (r : List (H × List Parameter) × Except Err Bool) : Bool :=
  match r with
  | ([], .error _) => true
  | _ => false

/-- A token accepts a word, with a literal token required to be equal to the word. -/
def token_accepts_equal (tk : Token) (word : CStr) : Bool :=
  match tk.literal with
  | some literal => decide (literal = word)
  | none =>
    match tk.param_type with
    | ParameterType.STRING => true
    | ParameterType.INTEGER => (my_atoi word).toBool
    | ParameterType.PATH => (validate_path word).toBool

/-- A pattern matches the words, with literal tokens required to be equal to their words. -/
def pattern_matches_equal {H : Type} (cmd : Command H) (words : List CStr) : Bool :=
  decide (cmd.tokens.length = words.length) &&
    (List.zip cmd.tokens words).all (fun p => token_accepts_equal p.1 p.2)

/-- The parameter a token extracts from its word: none for a literal token. -/
def slot_value (tk : Token) (word : CStr) : Option Parameter :=
  match tk.literal with
  | some _ => none
  | none =>
    match tk.param_type with
    | ParameterType.STRING => some (Parameter.of_str tk.param_name word)
    | ParameterType.INTEGER =>
      match my_atoi word with
      | .ok v => some (Parameter.of_int tk.param_name v)
      | .error _ => none
    | ParameterType.PATH => some (Parameter.of_str tk.param_name word)

/-- The parameters a pattern extracts from the words, in token order. -/
def slot_values (tokens : List Token) (words : List CStr) : List Parameter :=
  (List.zip tokens words).filterMap (fun p => slot_value p.1 p.2)

/-- Digit runs written one after the other, separated by commas. -/
def pasv_join : List (List Char) → CStr
  | r :: r1 :: rs => r ++ ',' :: pasv_join (r1 :: rs)
  | [r] => r
  | [] => []

/-- The value the loop of `parse_pasv_addr` leaves in a cleared cell after a run of
digits: the decimal value, reduced to an `int` at every step. -/
def accumulate_int (ds : List Char) : Int :=
  ds.foldl (fun acc c => wrap_int32 (acc * 10 + digit_value c)) 0

/-- A registry of two patterns with the same literal: "port" followed by an INTEGER
slot, handler 0, then "port" followed by a STRING slot, handler 1. -/
def port_commands : List (Command Nat) :=
  [ { action := 0, tokens := [Token.of_literal "port", Token.of_param 0 "n" ParameterType.INTEGER] },
    { action := 1, tokens := [Token.of_literal "port", Token.of_param 0 "s" ParameterType.STRING] } ]

/-- The handlers invoked, in order, in a dispatch result. -/
def dispatched_handlers {H : Type} (r : List (H × List Parameter) × Except Err Bool) : List H :=
  r.1.map Prod.fst

/-- The literal of the first token of a pattern, cut to the 256 characters that are compared. -/
def first_literal {H : Type} (cmd : Command H) : Option CStr :=
  (cmd.tokens.head?.bind Token.literal).map (List.take 256)

/-! ## Characters and digits -/

theorem is_digit_iff (c : Char) : is_digit c = true ↔ 48 ≤ c.toNat ∧ c.toNat ≤ 57 := by
  simp only [is_digit, Bool.and_eq_true, decide_eq_true_eq, Char.le_def, Char.toNat]
  rfl

theorem digit_value_bounds {c : Char} (h : is_digit c = true) :
    0 ≤ digit_value c ∧ digit_value c ≤ 9 := by
  rw [is_digit_iff] at h
  unfold digit_value
  omega

theorem is_digit_ne_minus {c : Char} (h : is_digit c = true) : c ≠ '-' := by
  rintro rfl
  revert h
  decide

/-- The fold computing a decimal value, started from `r`. -/
theorem decimal_fold_bounds (ds : List Char) (hd : ∀ c ∈ ds, is_digit c = true) (r : Int)
    (hr : 0 ≤ r) :
    0 ≤ ds.foldl (fun acc c => acc * 10 + digit_value c) r ∧
      ds.foldl (fun acc c => acc * 10 + digit_value c) r < (r + 1) * 10 ^ ds.length := by
  induction ds generalizing r with
  | nil => simp; omega
  | cons c cs ih =>
    have hc := digit_value_bounds (hd c (by simp))
    have h := ih (fun x hx => hd x (by simp [hx])) (r * 10 + digit_value c) (by omega)
    refine ⟨h.1, ?_⟩
    have h2 := h.2
    simp only [List.foldl_cons, List.length_cons, pow_succ]
    have h3 : (r * 10 + digit_value c + 1) * 10 ^ cs.length ≤ (r + 1) * (10 ^ cs.length * 10) := by
      have hp : (0 : Int) ≤ 10 ^ cs.length := by positivity
      nlinarith
    omega

/-! ## Utils::my_atoi -/

theorem my_atoi_loop_digits (ds : List Char) (hd : ∀ c ∈ ds, is_digit c = true) (i : Nat)
    (r sgn : Int) (hlen : i + ds.length ≤ 10) :
    my_atoi_loop ds i r sgn
      = .ok (ds.foldl (fun acc c => acc * 10 + digit_value c) r, sgn, []) := by
  induction ds generalizing i r with
  | nil => simp [my_atoi_loop]
  | cons c cs ih =>
    have hc : is_digit c = true := hd c (by simp)
    have hi : i < MAX_INPUT_LEN := by simp [MAX_INPUT_LEN] at *; omega
    simp only [my_atoi_loop, hi, if_true, is_digit_ne_minus hc, and_false, if_false, hc,
      List.foldl_cons]
    exact ih (fun x hx => hd x (by simp [hx])) (i + 1) _ (by simp at hlen; omega)

/-- C3 (amended): for every string of at most ten characters in all, made of an
optional leading `'-'` followed by decimal digits, whose signed value is below
2147483647, `my_atoi` succeeds and returns that value. -/
theorem my_atoi_decimal (neg : Bool) (ds : List Char) (hd : ∀ c ∈ ds, is_digit c = true)
    (hlen : (if neg then 1 else 0) + ds.length ≤ 10)
    (hfit : (if neg then -1 else 1) * decimal_value ds < 2147483647) :
    my_atoi ((if neg then ['-'] else []) ++ ds)
      = .ok ((if neg then -1 else 1) * decimal_value ds) := by
  have hb := decimal_fold_bounds ds hd 0 (le_refl 0)
  cases neg with
  | false =>
    simp only [Bool.false_eq_true, if_false, List.nil_append, one_mul, zero_add] at *
    simp only [my_atoi, my_atoi_loop_digits ds hd 0 0 1 (by omega), ne_eq, not_true_eq_false,
      if_false, mul_one, INT_MAX, INT_MIN, ge_iff_le]
    unfold decimal_value at *
    rw [if_neg (by omega)]
  | true =>
    simp only [if_true, List.singleton_append] at *
    have hpow : (10 : Int) ^ ds.length ≤ 10 ^ 9 :=
      pow_le_pow_right₀ (by norm_num) (by omega)
    simp only [my_atoi, my_atoi_loop, MAX_INPUT_LEN, Nat.lt_add_one, if_true, and_self, zero_add,
      Nat.ofNat_pos, my_atoi_loop_digits ds hd 1 0 (-1) (by omega), ne_eq, not_true_eq_false,
      if_false, INT_MAX, INT_MIN, ge_iff_le]
    unfold decimal_value at *
    rw [if_neg (by omega)]
    congr 1
    ring

/-- C3 (witness): the strings "42" and "-7". -/
theorem my_atoi_decimal_witness :
    my_atoi "42".toList = .ok 42 ∧ my_atoi "-7".toList = .ok (-7) :=
  ⟨my_atoi_decimal false "42".toList (by decide) (by decide) (by decide),
   my_atoi_decimal true "7".toList (by decide) (by decide) (by decide)⟩

/-- C3 (counterexample): "-1000000000" is a `'-'` followed by ten decimal digits, its
value -1000000000 lies within -2147483648..2147483647, and `my_atoi` throws
"input length exceeded": the loop stops after ten characters, the sign included. -/
theorem my_atoi_sign_and_ten_digits_rejected :
    "-1000000000".toList = '-' :: "1000000000".toList ∧
    (∀ c ∈ "1000000000".toList, is_digit c = true) ∧
    "1000000000".toList.length = 10 ∧
    -(decimal_value "1000000000".toList) = -1000000000 ∧
    (-2147483648 : Int) ≤ -1000000000 ∧ (-1000000000 : Int) ≤ 2147483647 ∧
    my_atoi "-1000000000".toList = .error .atoi_length_exceeded := by
  decide

/-! ## validate_path -/

theorem has_double_slash_cons_cons (c d : Char) (cs : List Char) :
    has_double_slash (c :: d :: cs)
      = ((decide (c = '/') && decide (d = '/')) || has_double_slash (d :: cs)) := by
  rw [has_double_slash]

theorem has_double_slash_single (c : Char) : has_double_slash [c] = false := by
  simp [has_double_slash]

theorem has_double_slash_cons_of_ne {c : Char} (hc : c ≠ '/') (l : List Char) :
    has_double_slash (c :: l) = has_double_slash l := by
  cases l with
  | nil => simp [has_double_slash]
  | cons d ds => rw [has_double_slash_cons_cons]; simp [hc]

/-- The loop of `validate_path` from any state: `dirname_len = 0 ∧ folders_count ≠ 0`
says that the character before the cursor is a `'/'`. -/
theorem validate_path_loop_eq (cs : List Char) (i dl fc : Nat) :
    validate_path_loop cs i dl fc
      = if has_double_slash
            ((if dl = 0 ∧ fc ≠ 0 then ['/'] else []) ++ cs.take (CMD_MAX_LENGTH - i)) = true
        then .error .path_duplicate_separator
        else .ok (cs.drop (CMD_MAX_LENGTH - i)) := by
  induction cs generalizing i dl fc with
  | nil =>
    by_cases h : dl = 0 ∧ fc ≠ 0
    · simp [validate_path_loop, h, has_double_slash_single]
    · simp [validate_path_loop, h, has_double_slash]
  | cons c cs ih =>
    by_cases hi : i < CMD_MAX_LENGTH
    · have hsub : CMD_MAX_LENGTH - i = (CMD_MAX_LENGTH - (i + 1)) + 1 := by omega
      rw [validate_path_loop, if_pos hi, hsub, List.take_succ_cons, List.drop_succ_cons]
      by_cases hc : c = '/'
      · subst hc
        by_cases h : dl = 0 ∧ fc ≠ 0
        · simp [h, has_double_slash]
        · rw [if_pos rfl, if_neg h, ih]
          simp [h]
      · rw [if_neg hc, ih]
        have h2 : ¬ (dl + 1 = 0 ∧ fc ≠ 0) := by omega
        rw [if_neg h2, List.nil_append]
        by_cases h : dl = 0 ∧ fc ≠ 0
        · rw [if_pos h, List.singleton_append, has_double_slash_cons_cons,
            has_double_slash_cons_of_ne hc]
          simp [hc]
        · rw [if_neg h, List.nil_append, has_double_slash_cons_of_ne hc]
    · have hz : CMD_MAX_LENGTH - i = 0 := by omega
      by_cases h : dl = 0 ∧ fc ≠ 0
      · simp [validate_path_loop, hi, hz, h, has_double_slash_single]
      · simp [validate_path_loop, hi, hz, h, has_double_slash]

/-- The function `validate_path` in closed form. -/
theorem validate_path_eq (word : CStr) :
    validate_path word
      = if has_double_slash (word.take CMD_MAX_LENGTH) = true then .error .path_duplicate_separator
        else if CMD_MAX_LENGTH < word.length then .error .path_too_long else .ok () := by
  unfold validate_path
  rw [validate_path_loop_eq]
  by_cases h : has_double_slash (word.take CMD_MAX_LENGTH) = true
  · simp [h]
  · by_cases hl : CMD_MAX_LENGTH < word.length
    · have : List.drop CMD_MAX_LENGTH word ≠ [] := by
        intro h0
        have := congrArg List.length h0
        simp at this
        omega
      simp [h, hl, this]
    · have : List.drop CMD_MAX_LENGTH word = [] := by
        apply List.drop_eq_nil_of_le; omega
      simp [h, hl, this]

/-- C4: `validate_path` accepts a word if and only if the word has at most 256
characters and no two consecutive `'/'`, and throws otherwise; "a/b/c" is accepted,
"a//b" is rejected, a 256-character path without "//" is accepted (here 256 times
`'a'`) and every 257-character path is rejected. -/
theorem validate_path_accepts_iff :
    (∀ word : CStr, (validate_path word = .ok ()
        ↔ (word.length ≤ 256 ∧ has_double_slash word = false)) ∧
      (¬ (word.length ≤ 256 ∧ has_double_slash word = false)
        → ∃ e, validate_path word = .error e)) ∧
    validate_path "a/b/c".toList = .ok () ∧
    validate_path "a//b".toList = .error .path_duplicate_separator ∧
    validate_path (List.replicate 256 'a') = .ok () ∧
    (∀ word : CStr, word.length = 257 → ∃ e, validate_path word = .error e) := by
  have main : ∀ word : CStr, (validate_path word = .ok ()
        ↔ (word.length ≤ 256 ∧ has_double_slash word = false)) := by
    intro word
    rw [validate_path_eq]
    by_cases hl : CMD_MAX_LENGTH < word.length
    · by_cases h : has_double_slash (word.take CMD_MAX_LENGTH) = true
      · simp only [h, if_true, reduceCtorEq, false_iff, not_and]
        intro hle
        simp [CMD_MAX_LENGTH] at hl; omega
      · simp only [h, hl, if_true, if_false, reduceCtorEq, false_iff, not_and]
        intro hle
        simp [CMD_MAX_LENGTH] at hl; omega
    · have ht : word.take CMD_MAX_LENGTH = word := List.take_of_length_le (by omega)
      rw [ht]
      have hle : word.length ≤ 256 := by simp [CMD_MAX_LENGTH] at hl; omega
      by_cases h : has_double_slash word = true
      · simp [h]
      · simp [h, hl, hle]
  have err : ∀ word : CStr, validate_path word ≠ .ok () → ∃ e, validate_path word = .error e := by
    intro word hne
    cases hv : validate_path word with
    | error e => exact ⟨e, rfl⟩
    | ok u => exact absurd hv hne
  refine ⟨fun word => ⟨main word, fun hn => err word (fun hok => hn ((main word).mp hok))⟩,
    by decide, by decide, ?_, ?_⟩
  · rw [main]
    refine ⟨by rw [List.length_replicate], ?_⟩
    have : ∀ n, has_double_slash (List.replicate n 'a') = false := by
      intro n
      induction n with
      | zero => rfl
      | succ n ih =>
        cases n with
        | zero => exact has_double_slash_single _
        | succ m =>
          rw [List.replicate_succ, List.replicate_succ, has_double_slash_cons_cons,
            ← List.replicate_succ, ih]
          decide
    exact this 256
  · intro word hw
    apply err
    intro hok
    have := ((main word).mp hok).1
    omega

/-- C4 (witness): the word "a/b/c" has at most 256 characters and no "//". -/
theorem validate_path_accepts_iff_witness : validate_path "a/b/c".toList = .ok () :=
  (validate_path_accepts_iff.1 "a/b/c".toList).1.mpr ⟨by decide, by decide⟩

/-! ## try_match_token, try_parse_command, try_execute -/

theorem strncmp_eq_zero_iff (a b : CStr) (n : Nat) :
    strncmp a b n = 0 ↔ a.take n = b.take n := by
  induction n generalizing a b with
  | zero => simp [strncmp]
  | succ n ih =>
    cases a with
    | nil => cases b <;> simp [strncmp]
    | cons x xs =>
      cases b with
      | nil => simp [strncmp]
      | cons y ys =>
        by_cases hxy : x = y
        · simp [strncmp, hxy, ih]
        · by_cases hlt : x.toNat < y.toNat <;> simp [strncmp, hxy, hlt]

theorem take_succ_set {α : Type} (l : List α) (k : Nat) (v : α) (hk : k < l.length) :
    (l.set k v).take (k + 1) = l.take k ++ [v] := by
  induction l generalizing k with
  | nil => simp at hk
  | cons x xs ih =>
    cases k with
    | zero => simp
    | succ k => simp at hk; simp [ih k hk]

/-- One call of `try_match_token` that returns: the `bool` is whether the token
accepts the word, the array keeps its length and its cells below `param`, and a
parameter slot stores its value at `param` and moves `param` on by one. -/
theorem try_match_token_ok {tk : Token} {w : CStr} {pms pms1 : List Parameter} {k k1 : Nat}
    {b : Bool} (hk : k ≤ pms.length) (h : try_match_token tk w pms k = .ok (b, pms1, k1)) :
    b = token_accepts tk w ∧ pms1.length = pms.length ∧ k1 ≤ pms.length ∧
      pms1.take k1 = pms.take k ++ (slot_value tk w).toList := by
  have hwrite : ∀ v, write_param pms k v = .ok (pms1, k1) →
      pms1.length = pms.length ∧ k1 ≤ pms.length ∧ pms1.take k1 = pms.take k ++ [v] := by
    intro v hv
    unfold write_param at hv
    by_cases hlt : k < pms.length
    · rw [if_pos hlt] at hv
      simp only [Except.ok.injEq, Prod.mk.injEq] at hv
      obtain ⟨rfl, rfl⟩ := hv
      exact ⟨by simp, hlt, take_succ_set pms k v hlt⟩
    · rw [if_neg hlt] at hv
      cases hv
  unfold try_match_token at h
  unfold token_accepts slot_value
  cases hl : tk.literal with
  | some lit =>
    rw [hl] at h
    simp only [Except.ok.injEq, Prod.mk.injEq] at h
    obtain ⟨hb, rfl, rfl⟩ := h
    refine ⟨?_, rfl, hk, by simp⟩
    rw [← hb]; simp [strncmp_eq_zero_iff, CMD_MAX_LENGTH]
  | none =>
    rw [hl] at h
    cases ht : tk.param_type with
    | STRING =>
      rw [ht] at h
      simp only at h
      cases hw : write_param pms k (Parameter.of_str tk.param_name w) with
      | error e => rw [hw] at h; cases h
      | ok r =>
        obtain ⟨p1, p2⟩ := r
        rw [hw] at h
        simp only [Except.ok.injEq, Prod.mk.injEq] at h
        obtain ⟨rfl, rfl, rfl⟩ := h
        have := hwrite _ hw
        exact ⟨rfl, this.1, this.2.1, by simpa using this.2.2⟩
    | INTEGER =>
      rw [ht] at h
      simp only at h
      cases ha : my_atoi w with
      | error e => rw [ha] at h; cases h
      | ok v =>
        rw [ha] at h
        simp only at h
        cases hw : write_param pms k (Parameter.of_int tk.param_name v) with
        | error e => rw [hw] at h; cases h
        | ok r =>
          obtain ⟨p1, p2⟩ := r
          rw [hw] at h
          simp only [Except.ok.injEq, Prod.mk.injEq] at h
          obtain ⟨rfl, rfl, rfl⟩ := h
          have := hwrite _ hw
          exact ⟨by simp [Except.toBool], this.1, this.2.1, by simpa using this.2.2⟩
    | PATH =>
      rw [ht] at h
      simp only at h
      cases ha : validate_path w with
      | error e => rw [ha] at h; cases h
      | ok v =>
        rw [ha] at h
        simp only at h
        cases hw : write_param pms k (Parameter.of_str tk.param_name w) with
        | error e => rw [hw] at h; cases h
        | ok r =>
          obtain ⟨p1, p2⟩ := r
          rw [hw] at h
          simp only [Except.ok.injEq, Prod.mk.injEq] at h
          obtain ⟨rfl, rfl, rfl⟩ := h
          have := hwrite _ hw
          exact ⟨by simp [Except.toBool], this.1, this.2.1, by simpa using this.2.2⟩

/-- A walk of `try_parse_command` that returns: it returns `true` exactly when every
token accepts its word and the counts agree; the array keeps its length, and after
a full match its cells from `iter_pms` on hold the extracted parameters in token order. -/
theorem try_parse_loop_ok (tks : List Token) (ws : List CStr) (pms pms1 : List Parameter)
    (k : Nat) (b : Bool) (hk : k ≤ pms.length)
    (h : try_parse_loop tks ws pms k = .ok (b, pms1)) :
    (b = true ↔ List.Forall₂ (fun tk w => token_accepts tk w = true) tks ws) ∧
      pms1.length = pms.length ∧
      (b = true → k + (slot_values tks ws).length ≤ pms.length ∧
        pms1.take (k + (slot_values tks ws).length) = pms.take k ++ slot_values tks ws) := by
  induction tks generalizing ws pms k with
  | nil =>
    cases ws with
    | nil =>
      simp only [try_parse_loop, Except.ok.injEq, Prod.mk.injEq] at h
      obtain ⟨rfl, rfl⟩ := h
      simp [slot_values, hk]
    | cons w ws =>
      simp only [try_parse_loop, Except.ok.injEq, Prod.mk.injEq] at h
      obtain ⟨rfl, rfl⟩ := h
      simp
  | cons tk tks ih =>
    cases ws with
    | nil =>
      simp only [try_parse_loop, Except.ok.injEq, Prod.mk.injEq] at h
      obtain ⟨rfl, rfl⟩ := h
      simp
    | cons w ws =>
      rw [try_parse_loop] at h
      cases hm : try_match_token tk w pms k with
      | error e => rw [hm] at h; cases h
      | ok r =>
        obtain ⟨b1, p1, k1⟩ := r
        rw [hm] at h
        obtain ⟨hb1, hlen1, hk1, htake1⟩ := try_match_token_ok hk hm
        cases b1 with
        | false =>
          simp only [Except.ok.injEq, Prod.mk.injEq] at h
          obtain ⟨rfl, rfl⟩ := h
          refine ⟨?_, hlen1, by simp⟩
          simp only [Bool.false_eq_true, List.forall₂_cons, false_iff, not_and]
          intro hacc
          rw [← hb1] at hacc
          cases hacc
        | true =>
          simp only at h
          have hk1' : k1 ≤ p1.length := by omega
          obtain ⟨i1, i2, i3⟩ := ih ws p1 k1 hk1' h
          have hlenk : k1 = k + (slot_value tk w).toList.length := by
            have := congrArg List.length htake1
            simp only [List.length_take, List.length_append] at this
            omega
          have hsv : slot_values (tk :: tks) (w :: ws)
              = (slot_value tk w).toList ++ slot_values tks ws := by
            unfold slot_values
            cases hs : slot_value tk w <;> simp [hs]
          refine ⟨?_, by omega, ?_⟩
          · rw [i1, List.forall₂_cons, ← hb1]; simp
          · intro hb
            obtain ⟨j1, j2⟩ := i3 hb
            rw [hsv, List.length_append]
            refine ⟨by omega, ?_⟩
            have e1 : k + ((slot_value tk w).toList.length + (slot_values tks ws).length)
                = k1 + (slot_values tks ws).length := by omega
            rw [e1, j2, htake1, List.append_assoc]

theorem pattern_matches_iff {H : Type} (cmd : Command H) (words : List CStr) :
    pattern_matches cmd words = true
      ↔ List.Forall₂ (fun tk w => token_accepts tk w = true) cmd.tokens words := by
  unfold pattern_matches
  rw [List.forall₂_iff_zip]
  simp only [Bool.and_eq_true, decide_eq_true_eq, List.all_eq_true, Prod.forall]

/-- The loop of `try_execute` from any pattern on, when it does not stop with an
exception before a handler is invoked: without a matching pattern it returns `false`
and invokes nothing, otherwise it invokes the handler of the first matching pattern,
once, on an array that starts with the extracted parameters, and returns `true` when
the handler returns. -/
theorem try_execute_loop_spec {H : Type} (env : Env H) (commands : List (Command H))
    (words : List CStr) (pms : List Parameter) (hlen : pms.length = 10)
    (hno : pattern_raised (try_execute_loop env commands words pms) = false) :
    ((∀ cmd ∈ commands, pattern_matches cmd words = false) →
        try_execute_loop env commands words pms = ([], .ok false)) ∧
    (∀ pre cmd post, commands = pre ++ cmd :: post →
      (∀ c ∈ pre, pattern_matches c words = false) → pattern_matches cmd words = true →
      ∃ pms1, pms1.length = 10 ∧
        pms1.take (slot_values cmd.tokens words).length = slot_values cmd.tokens words ∧
        try_execute_loop env commands words pms
          = ([(cmd.action, pms1)],
              match env.run cmd.action pms1 with
              | .error e => .error e
              | .ok _ => .ok true)) := by
  induction commands generalizing pms with
  | nil =>
    refine ⟨fun _ => rfl, ?_⟩
    intro pre cmd post h
    simp at h
  | cons c cs ih =>
    cases hp : try_parse_command c words pms with
    | error e =>
      simp [try_execute_loop, hp, pattern_raised] at hno
    | ok r =>
      obtain ⟨b, pms1⟩ := r
      obtain ⟨hb, hlen1, htake⟩ := try_parse_loop_ok c.tokens words pms pms1 0 b (Nat.zero_le _) hp
      rw [← pattern_matches_iff] at hb
      cases b with
      | true =>
        have hmatch : pattern_matches c words = true := hb.mp rfl
        refine ⟨fun hnone => ?_, ?_⟩
        · rw [hnone c (by simp)] at hmatch; cases hmatch
        intro pre cmd post hsplit hpre _
        cases pre with
        | nil =>
          simp only [List.nil_append, List.cons.injEq] at hsplit
          obtain ⟨rfl, rfl⟩ := hsplit
          refine ⟨pms1, by omega, ?_, ?_⟩
          · have := (htake rfl).2
            simpa using this
          · simp [try_execute_loop, hp]
        | cons x xs =>
          simp only [List.cons_append, List.cons.injEq] at hsplit
          obtain ⟨rfl, _⟩ := hsplit
          rw [hpre c (by simp)] at hmatch; cases hmatch
      | false =>
        have hnm : pattern_matches c words = false := by
          cases hm : pattern_matches c words with
          | false => rfl
          | true => exact absurd (hb.mpr hm) (by simp)
        have hstep : try_execute_loop env (c :: cs) words pms
            = try_execute_loop env cs words pms1 := by
          simp [try_execute_loop, hp]
        obtain ⟨ih1, ih2⟩ := ih pms1 (by omega) (by rw [← hstep]; exact hno)
        refine ⟨?_, ?_⟩
        · intro hnone
          rw [hstep]
          exact ih1 (fun x hx => hnone x (by simp [hx]))
        · intro pre cmd post hsplit hpre hm
          cases pre with
          | nil =>
            simp only [List.nil_append, List.cons.injEq] at hsplit
            obtain ⟨rfl, rfl⟩ := hsplit
            rw [hnm] at hm; cases hm
          | cons x xs =>
            simp only [List.cons_append, List.cons.injEq] at hsplit
            obtain ⟨rfl, rfl⟩ := hsplit
            rw [hstep]
            exact ih2 xs cmd post rfl (fun y hy => hpre y (by simp [hy])) hm

/-- A pattern whose token count differs from the word count does not match. -/
theorem pattern_matches_of_length_ne {H : Type} (cmd : Command H) (words : List CStr)
    (h : cmd.tokens.length ≠ words.length) : pattern_matches cmd words = false := by
  simp [pattern_matches, h]

/-- C1 (amended): for every registry and every word sequence, when no pattern raises
an error (or overruns the ten-cell parameter array) while being tried, that is when
`try_execute` does not stop with an exception before any handler is invoked,
`try_execute` returns `true` only when some pattern matches the words (as many tokens
as words, every literal token agreeing with its word on the first 256 characters,
every parameter slot accepting its word); when some pattern matches, it invokes the
handler of the first matching pattern in registration order, once, on an array that
starts with the extracted parameters in token order, invokes no other handler, and
returns `true` as soon as that handler returns; when none matches it returns `false`
and invokes no handler. -/
theorem try_execute_first_match {H : Type} (env : Env H) (commands : List (Command H))
    (words : List CStr)
    (hno : pattern_raised (try_execute env commands words) = false) :
    ((∀ cmd ∈ commands, pattern_matches cmd words = false) →
        try_execute env commands words = ([], .ok false)) ∧
    (∀ pre cmd post, commands = pre ++ cmd :: post →
      (∀ c ∈ pre, pattern_matches c words = false) → pattern_matches cmd words = true →
      ∃ pms, pms.length = 10 ∧
        pms.take (slot_values cmd.tokens words).length = slot_values cmd.tokens words ∧
        try_execute env commands words
          = ([(cmd.action, pms)],
              match env.run cmd.action pms with
              | .error e => .error e
              | .ok _ => .ok true)) ∧
    ((try_execute env commands words).2 = .ok true →
      ∃ cmd ∈ commands, pattern_matches cmd words = true) := by
  have hspec := try_execute_loop_spec env commands words
    (List.replicate 10 env.default_parameter) (by simp) hno
  refine ⟨hspec.1, hspec.2, ?_⟩
  intro htrue
  by_contra hnone
  have hnone' : ∀ cmd ∈ commands, pattern_matches cmd words = false := by
    intro cmd hc
    cases hm : pattern_matches cmd words with
    | false => rfl
    | true => exact absurd ⟨cmd, hc, hm⟩ hnone
  have := hspec.1 hnone'
  unfold try_execute at htrue
  rw [this] at htrue
  cases htrue

/-- C1 (witness): the registry of the FTP interpreter and the words of "list": the
pattern "list <path>" has two tokens, the later pattern "list" is the first that
matches, and its handler `cmd_list0` is the one invoked. -/
theorem try_execute_first_match_witness :
    ∃ pms, pms.length = 10 ∧
      pms.take 0 = slot_values [Token.of_literal "list"] ["list".toList] ∧
      try_execute (env_returning FTPHandler) ftp_commands ["list".toList]
        = ([(FTPHandler.cmd_list0, pms)], .ok true) :=
  (try_execute_first_match (env_returning FTPHandler) ftp_commands ["list".toList]
      (by decide)).2.1
    (ftp_commands.take 4) { action := FTPHandler.cmd_list0, tokens := [Token.of_literal "list"] }
    (ftp_commands.drop 5) (by rfl) (by decide) (by decide)

set_option maxRecDepth 100000 in
/-- C1 (counterexample): two inputs on which no pattern raises an error. First, the
only pattern of the registry is a literal of 257 characters `'a'` and the only word
is 256 characters `'a'`: no pattern has its literal equal to the word, yet
`try_execute` invokes the handler and returns `true`, because `strncmp` compares the
first 256 characters only. Second, the registry of the FTP interpreter and the word
"logout", with a handler that throws "logout failed": the pattern "logout" matches,
its handler is invoked, and `try_execute` does not return `true` but ends with the
exception of the handler. -/
theorem try_execute_not_exactly_on_match :
    ([List.replicate 256 'a'] ≠ [] ∧
      pattern_raised
        (try_execute (env_returning Nat) long_literal_commands [List.replicate 256 'a']) = false ∧
      (∀ cmd ∈ long_literal_commands,
        pattern_matches_equal cmd [List.replicate 256 'a'] = false) ∧
      try_execute (env_returning Nat) long_literal_commands [List.replicate 256 'a']
        = ([(7, List.replicate 10 (env_returning Nat).default_parameter)], .ok true)) ∧
    (pattern_raised (try_execute env_logout_fails ftp_commands ["logout".toList]) = false ∧
      (∃ cmd ∈ ftp_commands, pattern_matches_equal cmd ["logout".toList] = true) ∧
      try_execute env_logout_fails ftp_commands ["logout".toList]
        = ([(FTPHandler.cmd_logout, List.replicate 10 env_logout_fails.default_parameter)],
            .error .logout_failed)) := by
  decide

/-- C2 (amended): for every registry and every word sequence whose length differs
from the token count of every registered pattern, when no pattern raises an error
while being tried (a PATH or INTEGER slot reached before the missing or extra word is
noticed still checks its word), `try_execute` returns `false` and invokes no handler,
so that no parameter is bound for any handler. -/
theorem try_execute_length_mismatch {H : Type} (env : Env H) (commands : List (Command H))
    (words : List CStr)
    (hlen : ∀ cmd ∈ commands, cmd.tokens.length ≠ words.length)
    (hno : pattern_raised (try_execute env commands words) = false) :
    try_execute env commands words = ([], .ok false) :=
  (try_execute_loop_spec env commands words (List.replicate 10 env.default_parameter)
    (by simp) hno).1 (fun cmd hc => pattern_matches_of_length_ne cmd words (hlen cmd hc))

/-- C2 (witness): the registry of the FTP interpreter has no pattern of four tokens;
the four words of "get a b c" are refused. -/
theorem try_execute_length_mismatch_witness :
    try_execute (env_returning FTPHandler) ftp_commands
        ["get".toList, "a".toList, "b".toList, "c".toList] = ([], .ok false) :=
  try_execute_length_mismatch (env_returning FTPHandler) ftp_commands
    ["get".toList, "a".toList, "b".toList, "c".toList] (by decide) (by decide)

/-- C2 (counterexample): the registry of the FTP interpreter has no pattern of three
tokens, and on the four words of "get a//b x y" `try_execute` does not return `false`:
the pattern "get <path>" validates "a//b" before it notices the third word, and throws. -/
theorem try_execute_length_mismatch_throws :
    (∀ cmd ∈ ftp_commands,
      cmd.tokens.length ≠ ["get".toList, "a//b".toList, "x".toList, "y".toList].length) ∧
    try_execute (env_returning FTPHandler) ftp_commands
        ["get".toList, "a//b".toList, "x".toList, "y".toList]
      = ([], .error .path_duplicate_separator) := by
  decide

/-! ## CommandInterpreter::execute -/

theorem maximal_runs_nil : maximal_runs [] = [] := by
  rw [maximal_runs]

theorem maximal_runs_space (cs : List Char) : maximal_runs (' ' :: cs) = maximal_runs cs := by
  rw [maximal_runs]; simp

theorem maximal_runs_cons {c : Char} (hc : c ≠ ' ') (cs : List Char) :
    maximal_runs (c :: cs)
      = (c :: cs.takeWhile (fun d => d != ' ')) :: maximal_runs (cs.dropWhile (fun d => d != ' ')) := by
  rw [maximal_runs]; simp [hc]

/-- Every maximal run is non-empty, holds no space and is no longer than the line. -/
theorem maximal_runs_mem (n : Nat) (line : CStr) (hn : line.length ≤ n) :
    ∀ w ∈ maximal_runs line, w ≠ [] ∧ ' ' ∉ w ∧ w.length ≤ line.length := by
  induction n generalizing line with
  | zero =>
    have : line = [] := List.length_eq_zero.mp (by omega)
    subst this
    simp [maximal_runs_nil]
  | succ n ih =>
    cases line with
    | nil => simp [maximal_runs_nil]
    | cons c cs =>
      simp only [List.length_cons] at hn
      by_cases hc : c = ' '
      · subst hc
        rw [maximal_runs_space]
        intro w hw
        obtain ⟨h1, h2, h3⟩ := ih cs (by omega) w hw
        exact ⟨h1, h2, by simp only [List.length_cons]; omega⟩
      · rw [maximal_runs_cons hc]
        intro w hw
        have hdl := (List.dropWhile_sublist (fun d => d != ' ') (l := cs)).length_le
        have htl : (cs.takeWhile (fun d => d != ' ')).length ≤ cs.length := by
          have := List.takeWhile_append_dropWhile (fun d => d != ' ') cs
          have h2 := congrArg List.length this
          simp only [List.length_append] at h2
          omega
        rcases List.mem_cons.mp hw with rfl | hw
        · refine ⟨by simp, ?_, by simp only [List.length_cons]; omega⟩
          intro hmem
          rcases List.mem_cons.mp hmem with h | h
          · exact hc h.symm
          · have := List.mem_takeWhile_imp h
            simp at this
        · obtain ⟨h1, h2, h3⟩ := ih _ (by omega) w hw
          exact ⟨h1, h2, by simp only [List.length_cons]; omega⟩

/-- The loop of `execute` on at most `256 - i` valid characters: it runs to the end
of the line, and the words it has found, the pending one included, are the stored
words followed by the runs of the pending word joined with the rest of the line. -/
theorem execute_loop_runs (cs : List Char) (i : Nat) (word : CStr) (words : List CStr)
    (hv : ∀ c ∈ cs, is_valid_character c = true) (hlen : i + cs.length ≤ 256) :
    ∃ w1 ws1, execute_loop cs i word words = .ok (w1, ws1, []) ∧
      (if w1 ≠ [] then ws1 ++ [w1] else ws1)
        = words ++ (if word = [] then maximal_runs cs
            else (word ++ cs.takeWhile (fun d => d != ' '))
              :: maximal_runs (cs.dropWhile (fun d => d != ' '))) := by
  induction cs generalizing i word words with
  | nil =>
    refine ⟨word, words, by simp [execute_loop], ?_⟩
    by_cases hw : word = [] <;> simp [hw, maximal_runs_nil]
  | cons c cs ih =>
    have hi : i < CMD_MAX_LENGTH := by simp only [List.length_cons] at hlen; simp [CMD_MAX_LENGTH]; omega
    have hvc : is_valid_character c = true := hv c (by simp)
    have hv' : ∀ x ∈ cs, is_valid_character x = true := fun x hx => hv x (by simp [hx])
    have hlen' : i + 1 + cs.length ≤ 256 := by simp only [List.length_cons] at hlen; omega
    rw [execute_loop, if_pos hi]
    simp only [hvc, Bool.not_true, Bool.false_eq_true, if_false]
    by_cases hc : c = ' '
    · subst hc
      by_cases hw : word = []
      · subst hw
        obtain ⟨w1, ws1, h1, h2⟩ := ih (i + 1) [] words hv' hlen'
        refine ⟨w1, ws1, by simpa using h1, ?_⟩
        rw [h2]; simp [maximal_runs_space]
      · obtain ⟨w1, ws1, h1, h2⟩ := ih (i + 1) [] (words ++ [word]) hv' hlen'
        refine ⟨w1, ws1, by simpa [hw] using h1, ?_⟩
        rw [h2]; simp [hw, maximal_runs_space]
    · obtain ⟨w1, ws1, h1, h2⟩ := ih (i + 1) (word ++ [c]) words hv' hlen'
      refine ⟨w1, ws1, by simpa [hc] using h1, ?_⟩
      rw [h2]
      by_cases hw : word = []
      · subst hw; simp [maximal_runs_cons hc]
      · simp [hw, hc]

/-- The loop of `execute` on a line that goes beyond 256 characters or holds an
invalid character: it throws, or it stops before the end of the line. -/
theorem execute_loop_rejects (cs : List Char) (i : Nat) (word : CStr) (words : List CStr)
    (hi256 : i ≤ 256)
    (h : 256 < i + cs.length ∨ ∃ c ∈ cs, is_valid_character c = false) :
    (∃ e, execute_loop cs i word words = .error e) ∨
      ∃ w1 ws1 rest, execute_loop cs i word words = .ok (w1, ws1, rest) ∧ rest ≠ [] := by
  induction cs generalizing i word words with
  | nil =>
    rcases h with h | ⟨c, hc, _⟩
    · simp only [List.length_nil] at h; omega
    · simp at hc
  | cons c cs ih =>
    by_cases hi : i < CMD_MAX_LENGTH
    · have hi1 : i + 1 ≤ 256 := by simp [CMD_MAX_LENGTH] at hi; omega
      rw [execute_loop, if_pos hi]
      by_cases hvc : is_valid_character c = true
      · have h' : 256 < i + 1 + cs.length ∨ ∃ x ∈ cs, is_valid_character x = false := by
          rcases h with h | ⟨x, hx, hxv⟩
          · left; simp only [List.length_cons] at h; omega
          · rcases List.mem_cons.mp hx with rfl | hx
            · rw [hvc] at hxv; cases hxv
            · right; exact ⟨x, hx, hxv⟩
        simp only [hvc, Bool.not_true, Bool.false_eq_true, if_false]
        by_cases hc : c = ' '
        · by_cases hw : word = []
          · simpa [hc, hw] using ih (i + 1) [] words hi1 h'
          · simpa [hc, hw] using ih (i + 1) [] (words ++ [word]) hi1 h'
        · simpa [hc] using ih (i + 1) (word ++ [c]) words hi1 h'
      · left
        exact ⟨.invalid_character c, by simp [hvc]⟩
    · right
      exact ⟨word, words, c :: cs, by rw [execute_loop, if_neg hi], by simp⟩

/-- A rejected line: `execute` throws before `try_execute` is called. -/
theorem execute_rejects (line : CStr)
    (h : 256 < line.length ∨ ∃ c ∈ line, is_valid_character c = false) :
    ∃ e, execute_words line = .error e ∧
      ∀ (H : Type) (env : Env H) (commands : List (Command H)),
        execute env commands line = ([], .error e) := by
  have key : ∃ e, execute_words line = .error e := by
    unfold execute_words
    rcases execute_loop_rejects line 0 [] [] (by omega) (by simpa using h) with
      ⟨e, he⟩ | ⟨w1, ws1, rest, he, hrest⟩
    · exact ⟨e, by rw [he]⟩
    · exact ⟨.input_too_long, by rw [he]; simp [hrest]⟩
  obtain ⟨e, he⟩ := key
  exact ⟨e, he, fun H env commands => by unfold execute; rw [he]⟩

/-- C5: for every input line that holds a character outside letters, digits, `'_'`,
`' '`, `'/'`, `'.'`, wherever it stands, `execute` throws while it splits the line,
before `try_execute` is called: whatever the registry, no handler is invoked. -/
theorem execute_invalid_character (line : CStr)
    (h : ∃ c ∈ line, is_valid_character c = false) :
    ∃ e, execute_words line = .error e ∧
      ∀ (H : Type) (env : Env H) (commands : List (Command H)),
        execute env commands line = ([], .error e) :=
  execute_rejects line (Or.inr h)

/-- C5 (witness): the line "get a!" holds the character `'!'`. -/
theorem execute_invalid_character_witness :
    ∃ e, execute_words "get a!".toList = .error e ∧
      ∀ (H : Type) (env : Env H) (commands : List (Command H)),
        execute env commands "get a!".toList = ([], .error e) :=
  execute_invalid_character "get a!".toList ⟨'!', by decide, by decide⟩

/-- C6: for every input line of at most 256 characters drawn from the accepted set,
the words `execute` hands to the matcher are the maximal runs of non-space characters
of the line, in order; every such word is non-empty, holds no space and has at most
256 characters. Every line longer than 256 characters is rejected with an exception
thrown before `try_execute` is called, so that no handler is invoked. -/
theorem execute_words_maximal_runs (line : CStr) :
    (line.length ≤ 256 → (∀ c ∈ line, is_valid_character c = true) →
      execute_words line = .ok (maximal_runs line) ∧
      (∀ w ∈ maximal_runs line, w ≠ [] ∧ ' ' ∉ w ∧ w.length ≤ 256) ∧
      ∀ (H : Type) (env : Env H) (commands : List (Command H)),
        execute env commands line = execute_dispatch env commands (maximal_runs line)) ∧
    (256 < line.length →
      ∃ e, execute_words line = .error e ∧
        ∀ (H : Type) (env : Env H) (commands : List (Command H)),
          execute env commands line = ([], .error e)) := by
  refine ⟨?_, fun hlong => execute_rejects line (Or.inl hlong)⟩
  intro hlen hv
  obtain ⟨w1, ws1, h1, h2⟩ := execute_loop_runs line 0 [] [] hv (by omega)
  have hwords : execute_words line = .ok (maximal_runs line) := by
    unfold execute_words
    rw [h1]
    simp only [ne_eq, not_true_eq_false, if_false]
    rw [h2]
    simp
  refine ⟨hwords, ?_, ?_⟩
  · intro w hw
    obtain ⟨a, b, c⟩ := maximal_runs_mem line.length line (le_refl _) w hw
    exact ⟨a, b, by omega⟩
  · intro H env commands
    unfold execute
    rw [hwords]

/-- C6 (witness): the line " list  a/b " gives the two words "list" and "a/b"; a
line of 257 characters `'a'` is rejected. -/
theorem execute_words_maximal_runs_witness :
    maximal_runs " list  a/b ".toList = ["list".toList, "a/b".toList] ∧
    ∃ e, execute_words (List.replicate 257 'a') = .error e :=
  ⟨Except.ok.inj (((execute_words_maximal_runs " list  a/b ".toList).1 (by decide)
      (by decide)).1.symm.trans (by decide)),
   ((execute_words_maximal_runs (List.replicate 257 'a')).2
      (by rw [List.length_replicate]; decide)).imp (fun _ h => h.1)⟩

/-! ## read_line and recv_response -/

theorem set_eq_take_cons_drop {α : Type} (l : List α) (k : Nat) (v : α) (hk : k < l.length) :
    l.set k v = l.take k ++ v :: l.drop (k + 1) := by
  rw [List.set_eq_take_append_cons_drop, if_pos hk]

/-- The loop of `read_line` on a transport that delivers the bytes `l`, none of them
a line feed, then a line feed: the bytes and the line feed are stored from cell `c` on. -/
theorem read_line_loop_spec (l rest buffer : List Char) (c : Nat) (hl : '\n' ∉ l)
    (hfit : c + l.length < buffer.length) :
    read_line_loop (l ++ '\n' :: rest) buffer c
      = .ok (buffer.take c ++ l ++ '\n' :: buffer.drop (c + l.length + 1), c + l.length, rest) := by
  induction l generalizing buffer c with
  | nil =>
    simp only [List.length_nil, Nat.add_zero] at hfit
    simp [read_line_loop, hfit, set_eq_take_cons_drop]
  | cons x xs ih =>
    simp only [List.length_cons] at hfit
    have hx : x ≠ '\n' := fun h => hl (by simp [h])
    have hxs : '\n' ∉ xs := fun h => hl (by simp [h])
    have hc : c < buffer.length := by omega
    rw [List.cons_append, read_line_loop, if_pos hc, if_pos hx, ih (buffer.set c x) (c + 1) hxs
      (by simp; omega)]
    have e1 : c + 1 + xs.length + 1 = c + (xs.length + 1) + 1 := by omega
    have e2 : c + 1 + xs.length = c + (xs.length + 1) := by omega
    rw [take_succ_set buffer c x hc, List.drop_set_of_lt x buffer (by omega), e1, e2]
    simp

/-- The function `read_line` on a line that fits the buffer: the buffer then holds the
bytes before the line feed, the line feed and a NUL, the cells behind keeping what
they held; the transport is left after the line feed. -/
theorem read_line_spec (l rest buffer : List Char) (hl : '\n' ∉ l)
    (hfit : l.length + 2 ≤ buffer.length) :
    read_line (l ++ '\n' :: rest) buffer
      = .ok (l ++ '\n' :: '\x00' :: buffer.drop (l.length + 2), rest) := by
  unfold read_line
  rw [read_line_loop_spec l rest buffer 0 hl (by omega)]
  simp only [List.take_zero, List.nil_append, Nat.zero_add, List.length_append, List.length_cons,
    List.length_drop]
  rw [if_pos (by omega)]
  congr 2
  rw [List.set_append_right _ _ (by omega)]
  have e : l.length + 1 - l.length = 1 := by omega
  rw [e]
  cases hd : List.drop (l.length + 1) buffer with
  | nil =>
    have := congrArg List.length hd
    simp only [List.length_drop, List.length_nil] at this
    omega
  | cons y ys =>
    simp only [List.set_cons_succ, List.set_cons_zero]
    have : ys = List.drop (l.length + 2) buffer := by
      have h2 : List.drop 1 (List.drop (l.length + 1) buffer) = ys := by rw [hd]; rfl
      rw [List.drop_drop] at h2
      rw [← h2]
    rw [this]

/-- The function `read_line` on a line that does not fit: past the last cell. -/
theorem read_line_overrun (l rest buffer : List Char) (hl : '\n' ∉ l)
    (hfit : buffer.length < l.length + 2) :
    read_line (l ++ '\n' :: rest) buffer = .error .line_overrun := by
  have hloop : ∀ (l buffer : List Char) (c : Nat), '\n' ∉ l → buffer.length ≤ c + l.length →
      read_line_loop (l ++ '\n' :: rest) buffer c = .error .line_overrun := by
    intro l
    induction l with
    | nil =>
      intro buffer c _ h
      simp only [List.length_nil, Nat.add_zero] at h
      simp [read_line_loop, Nat.not_lt.mpr h]
    | cons x xs ih =>
      intro buffer c hl h
      simp only [List.length_cons] at h
      have hx : x ≠ '\n' := fun e => hl (by simp [e])
      have hxs : '\n' ∉ xs := fun e => hl (by simp [e])
      by_cases hc : c < buffer.length
      · rw [List.cons_append, read_line_loop, if_pos hc, if_pos hx]
        exact ih (buffer.set c x) (c + 1) hxs (by simp; omega)
      · rw [List.cons_append, read_line_loop, if_neg hc]
  unfold read_line
  by_cases h : buffer.length ≤ l.length
  · rw [hloop l buffer 0 hl (by omega)]
  · rw [read_line_loop_spec l rest buffer 0 hl (by omega)]
    simp only [List.take_zero, List.nil_append, Nat.zero_add, List.length_append,
      List.length_cons, List.length_drop]
    rw [if_neg (by omega)]

theorem c_str_append_nul (a b : List Char) : c_str (a ++ '\x00' :: b) = c_str a := by
  unfold c_str
  induction a with
  | nil => simp
  | cons x xs ih =>
    by_cases hx : x = '\x00'
    · simp [hx]
    · simpa [hx, List.takeWhile_cons] using ih

theorem c_str_of_no_nul (a : List Char) (h : '\x00' ∉ a) : c_str a = a := by
  unfold c_str
  rw [List.takeWhile_eq_self_iff]
  intro x hx
  have : x ≠ '\x00' := fun e => h (e ▸ hx)
  simpa using this

theorem getD_replicate_self {α : Type} (n k : Nat) (x : α) :
    (List.replicate n x).getD k x = x := by
  induction n generalizing k with
  | zero => simp
  | succ n ih =>
    cases k with
    | zero => simp [List.replicate_succ]
    | succ k => simp [List.replicate_succ]

theorem char_to_int_digit {c : Char} (h : is_digit c = true) :
    char_to_int c - 48 = digit_value c := by
  rw [is_digit_iff] at h
  unfold char_to_int digit_value
  rw [if_pos (by omega)]

/-- The loop condition of `recv_response` after a line has been read into `buffer`:
the loop goes on unless the line begins with the code characters and a space. The
code characters are no line feeds, so a line shorter than four bytes never ends the
loop, whatever the cells behind it still hold. -/
theorem recv_response_continue_line (a b c : Char) (fl tail m : List Char)
    (ha : a ≠ '\n') (hb : b ≠ '\n') (hc : c ≠ '\n') :
    recv_response_continue (a :: b :: c :: fl) (m ++ '\n' :: '\x00' :: tail)
      = !begins_with_code a b c m := by
  unfold recv_response_continue begins_with_code
  match m with
  | [] => simp [Ne.symm ha]
  | [x] => simp [Ne.symm hb]
  | [x, y] => simp [Ne.symm hc]
  | [x, y, z] => simp
  | x :: y :: z :: w :: t =>
    simp only [List.cons_append, List.getD_cons_zero, List.getD_cons_succ, List.take_succ_cons,
      List.take_zero, List.cons.injEq, and_true]
    by_cases h1 : x = a <;> by_cases h2 : y = b <;> by_cases h3 : z = c <;>
      by_cases h4 : w = ' ' <;> simp [h1, h2, h3, h4]

/-- The `while` loop of `recv_response` on the lines `mids`, none of which begins
with the code and a space, followed by the line `lk`, which does: every line is read
and given to the callback, and the loop ends right after `lk`. -/
theorem recv_response_loop_spec (a b c : Char) (fl : List Char)
    (ha : a ≠ '\n') (hb : b ≠ '\n') (hc : c ≠ '\n')
    (mids : List (List Char)) (lk rest : List Char)
    (hmids : ∀ m ∈ mids, '\n' ∉ m ∧ m.length ≤ 2046 ∧ begins_with_code a b c m = false)
    (hlk : '\n' ∉ lk ∧ lk.length ≤ 2046 ∧ begins_with_code a b c lk = true)
    (fuel : Nat) (hfuel : (wire_lines mids ++ lk ++ '\n' :: rest).length ≤ fuel)
    (buffer : List Char) (hbuf : buffer.length = LINE_BUFFER_SIZE)
    (hcont : recv_response_continue (a :: b :: c :: fl) buffer = true) (lines : List CStr) :
    recv_response_loop (a :: b :: c :: fl) fuel (wire_lines mids ++ lk ++ '\n' :: rest) buffer lines
      = (lines ++ (mids ++ [lk]).map (fun l => c_str (l ++ ['\n'])), .ok rest) := by
  induction mids generalizing fuel buffer lines with
  | nil =>
    cases fuel with
    | zero => simp at hfuel
    | succ fuel =>
      rw [recv_response_loop, if_pos hcont]
      simp only [wire_lines, List.nil_append]
      rw [read_line_spec lk rest buffer hlk.1 (by rw [hbuf]; simp [LINE_BUFFER_SIZE]; omega)]
      simp only
      rw [recv_response_loop.eq_def, recv_response_continue_line a b c fl _ lk ha hb hc, hlk.2.2]
      simp only [Bool.not_true, Bool.false_eq_true, if_false, List.map_cons, List.map_nil]
      have : c_str (lk ++ '\n' :: '\x00' :: List.drop (lk.length + 2) buffer)
          = c_str (lk ++ ['\n']) := by
        have e : lk ++ '\n' :: '\x00' :: List.drop (lk.length + 2) buffer
            = (lk ++ ['\n']) ++ '\x00' :: List.drop (lk.length + 2) buffer := by simp
        rw [e, c_str_append_nul]
      rw [this]
  | cons m ms ih =>
    obtain ⟨hm1, hm2, hm3⟩ := hmids m (by simp)
    cases fuel with
    | zero => simp [wire_lines] at hfuel
    | succ fuel =>
      rw [recv_response_loop, if_pos hcont]
      have e0 : wire_lines (m :: ms) ++ lk ++ '\n' :: rest
          = m ++ '\n' :: (wire_lines ms ++ lk ++ '\n' :: rest) := by
        simp [wire_lines]
      rw [e0, read_line_spec m _ buffer hm1 (by rw [hbuf]; simp [LINE_BUFFER_SIZE]; omega)]
      simp only
      have hc1 : c_str (m ++ '\n' :: '\x00' :: List.drop (m.length + 2) buffer)
          = c_str (m ++ ['\n']) := by
        have e : m ++ '\n' :: '\x00' :: List.drop (m.length + 2) buffer
            = (m ++ ['\n']) ++ '\x00' :: List.drop (m.length + 2) buffer := by simp
        rw [e, c_str_append_nul]
      rw [hc1, ih (fun x hx => hmids x (by simp [hx])) fuel
        (by rw [e0] at hfuel; simp only [List.length_append, List.length_cons] at hfuel ⊢; omega)
        _ (by simp [hbuf]; simp [LINE_BUFFER_SIZE] at hbuf ⊢; omega)
        (by rw [recv_response_continue_line a b c fl _ m ha hb hc, hm3]; rfl)]
      simp

theorem wire_lines_append_single (mids : List (List Char)) (lk rest : List Char) :
    wire_lines (mids ++ [lk]) ++ rest = wire_lines mids ++ lk ++ '\n' :: rest := by
  induction mids with
  | nil => simp [wire_lines]
  | cons m ms ih => simp [wire_lines, ← ih]

theorem c_str_line (l tail : List Char) :
    c_str (l ++ '\n' :: '\x00' :: tail) = c_str (l ++ ['\n']) := by
  have e : l ++ '\n' :: '\x00' :: tail = (l ++ ['\n']) ++ '\x00' :: tail := by simp
  rw [e, c_str_append_nul]

theorem recv_response_continue_zeros (first_line : List Char) (n : Nat) :
    recv_response_continue first_line (List.replicate n '\x00') = true := by
  unfold recv_response_continue
  rw [getD_replicate_self n 3]
  simp

/-- A first line that does not fit the line buffer: `recv_response` overruns it. -/
theorem recv_response_overrun (l rest : List Char) (hl : '\n' ∉ l) (hlen : 2046 < l.length) :
    recv_response (l ++ '\n' :: rest) = ([], .error .line_overrun) := by
  unfold recv_response
  simp only
  rw [read_line_overrun l rest _ hl
    (by rw [List.length_replicate]; unfold LINE_BUFFER_SIZE; omega)]

/-- C9 (amended): for every byte stream that holds a line feed with at most 2046
bytes before the first one (the room of the 2048-byte line buffer), `read_line`
stores the bytes that precede the first line feed, then the line-feed byte itself,
then a NUL, and leaves in the transport what follows the line feed: the text line it
returns is the bytes before the line feed followed by the line feed. -/
theorem read_line_stores_line (l rest buffer : List Char) (hl : '\n' ∉ l)
    (hbuf : buffer.length = LINE_BUFFER_SIZE) (hfit : l.length ≤ 2046) :
    ∃ buffer1, read_line (l ++ '\n' :: rest) buffer = .ok (buffer1, rest) ∧
      buffer1.length = LINE_BUFFER_SIZE ∧
      buffer1.take (l.length + 2) = l ++ ['\n', '\x00'] ∧
      ('\x00' ∉ l → c_str buffer1 = l ++ ['\n']) := by
  have hfit2 : l.length + 2 ≤ buffer.length := by rw [hbuf]; simp [LINE_BUFFER_SIZE]; omega
  refine ⟨_, read_line_spec l rest buffer hl hfit2, ?_, ?_, ?_⟩
  · simp only [List.length_append, List.length_cons, List.length_drop]
    omega
  · have e : l ++ '\n' :: '\x00' :: List.drop (l.length + 2) buffer
        = (l ++ ['\n', '\x00']) ++ List.drop (l.length + 2) buffer := by simp
    rw [e, List.take_append_of_le_length (by simp)]
    exact List.take_of_length_le (by simp)
  · intro hnul
    rw [c_str_line, c_str_of_no_nul]
    intro h
    rcases List.mem_append.mp h with h | h
    · exact hnul h
    · simp at h

/-- C9 (witness): the transport delivers "150 OK", a line feed, then "next". -/
theorem read_line_stores_line_witness :
    ∃ buffer1, read_line "150 OK\nnext".toList (List.replicate LINE_BUFFER_SIZE '\x00')
        = .ok (buffer1, "next".toList) ∧
      c_str buffer1 = "150 OK\n".toList := by
  obtain ⟨buffer1, h1, _, _, h4⟩ := read_line_stores_line "150 OK".toList "next".toList
    (List.replicate LINE_BUFFER_SIZE '\x00') (by decide) (List.length_replicate _ _) (by decide)
  exact ⟨buffer1, h1, h4 (by decide)⟩

/-- C9 (counterexample): on the bytes "150 OK" followed by a line feed, the text line
`read_line` leaves in the buffer is "150 OK" with the line feed, not "150 OK". -/
theorem read_line_keeps_line_feed :
    ∃ buffer1, read_line "150 OK\n".toList (List.replicate LINE_BUFFER_SIZE '\x00')
        = .ok (buffer1, []) ∧
      c_str buffer1 = "150 OK\n".toList ∧ c_str buffer1 ≠ "150 OK".toList := by
  refine ⟨_, read_line_spec "150 OK".toList [] (List.replicate LINE_BUFFER_SIZE '\x00')
    (by decide) (by rw [List.length_replicate]; decide), ?_⟩
  rw [c_str_line]
  decide

/-- C7 (amended): for every response whose first line has ASCII digits `d0 d1 d2` as
its first three characters and a space as its fourth, and has at most 2046 bytes
before its line feed (the room of the 2048-byte line buffer), `recv_response` takes
exactly that line from the transport, gives it to the callback and returns
`d0*100 + d1*10 + d2`. -/
theorem recv_response_single_line (d0 d1 d2 : Char) (tail rest : List Char)
    (hd0 : is_digit d0 = true) (hd1 : is_digit d1 = true) (hd2 : is_digit d2 = true)
    (hl : '\n' ∉ tail) (hfit : tail.length + 4 ≤ 2046) :
    recv_response (d0 :: d1 :: d2 :: ' ' :: tail ++ '\n' :: rest)
      = ([c_str (d0 :: d1 :: d2 :: ' ' :: tail ++ ['\n'])],
          .ok (digit_value d0 * 100 + digit_value d1 * 10 + digit_value d2, rest)) := by
  have hl' : '\n' ∉ d0 :: d1 :: d2 :: ' ' :: tail := by
    intro h
    simp only [List.mem_cons] at h
    rcases h with h | h | h | h | h
    · rw [← h] at hd0; revert hd0; decide
    · rw [← h] at hd1; revert hd1; decide
    · rw [← h] at hd2; revert hd2; decide
    · revert h; decide
    · exact hl h
  unfold recv_response
  simp only
  rw [read_line_spec _ rest _ hl'
    (by rw [List.length_replicate]; unfold LINE_BUFFER_SIZE; simp only [List.length_cons]; omega)]
  simp only [List.cons_append, List.getD_cons_succ, List.getD_cons_zero, if_true,
    response_code_to_int, char_to_int_digit hd0, char_to_int_digit hd1, char_to_int_digit hd2]
  rw [← List.cons_append, ← List.cons_append, ← List.cons_append, ← List.cons_append, c_str_line]
  rfl

/-- C7 (witness): the line "150 OK" yields 150. -/
theorem recv_response_single_line_witness :
    recv_response "150 OK\n".toList = (["150 OK\n".toList], .ok (150, [])) :=
  recv_response_single_line '1' '5' '0' "OK".toList [] (by decide) (by decide) (by decide)
    (by decide) (by decide)

/-- C7 (counterexample): the first line is "150 " followed by 2043 characters `'x'`:
three digits and a space, 2047 bytes before the line feed. `recv_response` does not
return 150: `read_line` stores the line feed in the last cell of `first_line` and
writes the terminating NUL past the end of the buffer. The same holds with 4096
characters `'x'`, where the line itself runs past the end of the buffer. -/
theorem recv_response_long_first_line :
    recv_response ("150 ".toList ++ List.replicate 2043 'x' ++ ['\n'])
      = ([], .error .line_overrun) ∧
    recv_response ("150 ".toList ++ List.replicate 4096 'x' ++ ['\n'])
      = ([], .error .line_overrun) := by
  have hl : ∀ n, '\n' ∉ "150 ".toList ++ List.replicate n 'x' := by
    intro n h
    rcases List.mem_append.mp h with h | h
    · revert h; decide
    · have := List.eq_of_mem_replicate h
      revert this; decide
  refine ⟨recv_response_overrun _ [] (hl 2043) ?_, recv_response_overrun _ [] (hl 4096) ?_⟩
  · rw [List.length_append, List.length_replicate]; decide
  · rw [List.length_append, List.length_replicate]; decide

/-- A second line that does not fit the line buffer: `recv_response` overruns it. -/
theorem recv_response_overrun_second (a b c : Char) (t0 lk rest : List Char)
    (hl0 : '\n' ∉ a :: b :: c :: t0) (hfit0 : t0.length + 3 ≤ 2046)
    (h4 : t0.head? ≠ some ' ') (hlk : '\n' ∉ lk) (hlen : 2046 < lk.length) :
    recv_response ((a :: b :: c :: t0) ++ '\n' :: (lk ++ '\n' :: rest))
      = ([c_str ((a :: b :: c :: t0) ++ ['\n'])], .error .line_overrun) := by
  unfold recv_response
  simp only
  rw [read_line_spec _ _ _ hl0
    (by rw [List.length_replicate]; unfold LINE_BUFFER_SIZE; simp only [List.length_cons]; omega)]
  have h3 : ((a :: b :: c :: t0) ++ '\n' :: '\x00' ::
      List.drop ((a :: b :: c :: t0).length + 2) (List.replicate LINE_BUFFER_SIZE '\x00')).getD 3
        '\x00' ≠ ' ' := by
    cases t0 with
    | nil => simp only [List.cons_append, List.nil_append, List.getD_cons_succ,
        List.getD_cons_zero]; decide
    | cons x xs =>
      simp only [List.cons_append, List.getD_cons_succ, List.getD_cons_zero]
      intro hx
      exact h4 (by simp [hx])
  simp only [h3, if_false]
  have hfuel : (lk ++ '\n' :: rest).length = (lk.length + rest.length) + 1 := by
    simp only [List.length_append, List.length_cons]; omega
  rw [hfuel, recv_response_loop, if_pos (recv_response_continue_zeros _ _),
    read_line_overrun _ _ _ hlk (by rw [List.length_replicate]; unfold LINE_BUFFER_SIZE; omega),
    c_str_line]

/-- C8 (amended): for every response whose first line has at least three characters
`a b c` and no space as its fourth (the fourth cell holds the line feed when the line
has three characters), all lines having at most 2046 bytes before their line feed
(the room of the 2048-byte line buffers), `recv_response` keeps reading lines and
stops exactly at the first later line that begins with `a b c` followed by a space:
it has read the lines `mids` before it, none of which begins so, reads nothing past
it, gives every line read to the callback and returns the code of the first line. -/
theorem recv_response_multi_line (a b c : Char) (t0 : List Char) (mids : List (List Char))
    (lk rest : List Char)
    (hl0 : '\n' ∉ a :: b :: c :: t0) (hfit0 : t0.length + 3 ≤ 2046)
    (h4 : t0.head? ≠ some ' ')
    (hmids : ∀ m ∈ mids, '\n' ∉ m ∧ m.length ≤ 2046 ∧ begins_with_code a b c m = false)
    (hlk : '\n' ∉ lk ∧ lk.length ≤ 2046 ∧ begins_with_code a b c lk = true) :
    recv_response (wire_lines ((a :: b :: c :: t0) :: mids ++ [lk]) ++ rest)
      = (((a :: b :: c :: t0) :: mids ++ [lk]).map (fun l => c_str (l ++ ['\n'])),
          .ok (response_code_to_int [a, b, c], rest)) := by
  have ha : a ≠ '\n' := fun h => hl0 (by simp [h])
  have hb : b ≠ '\n' := fun h => hl0 (by simp [h])
  have hc : c ≠ '\n' := fun h => hl0 (by simp [h])
  have e0 : wire_lines ((a :: b :: c :: t0) :: mids ++ [lk]) ++ rest
      = (a :: b :: c :: t0) ++ '\n' :: (wire_lines mids ++ lk ++ '\n' :: rest) := by
    rw [show (a :: b :: c :: t0) :: mids ++ [lk] = (a :: b :: c :: t0) :: (mids ++ [lk]) from rfl,
      wire_lines, List.append_assoc]
    congr 1
    rw [List.cons_append, wire_lines_append_single]
  rw [e0]
  unfold recv_response
  simp only
  rw [read_line_spec _ _ _ hl0
    (by rw [List.length_replicate]; unfold LINE_BUFFER_SIZE; simp only [List.length_cons]; omega)]
  have h3 : ((a :: b :: c :: t0) ++ '\n' :: '\x00' ::
      List.drop ((a :: b :: c :: t0).length + 2) (List.replicate LINE_BUFFER_SIZE '\x00')).getD 3
        '\x00' ≠ ' ' := by
    cases t0 with
    | nil => simp only [List.cons_append, List.nil_append, List.getD_cons_succ,
        List.getD_cons_zero]; decide
    | cons x xs =>
      simp only [List.cons_append, List.getD_cons_succ, List.getD_cons_zero]
      intro hx
      exact h4 (by simp [hx])
  simp only [h3, if_false]
  have hloop := recv_response_loop_spec a b c
    (t0 ++ '\n' :: '\x00' ::
      List.drop ((a :: b :: c :: t0).length + 2) (List.replicate LINE_BUFFER_SIZE '\x00'))
    ha hb hc mids lk rest hmids hlk
    (wire_lines mids ++ lk ++ '\n' :: rest).length (le_refl _)
    (List.replicate LINE_BUFFER_SIZE '\x00') (List.length_replicate _ _)
    (recv_response_continue_zeros _ _)
    [c_str ((a :: b :: c :: t0) ++ '\n' :: '\x00' ::
      List.drop ((a :: b :: c :: t0).length + 2) (List.replicate LINE_BUFFER_SIZE '\x00'))]
  have hcs := c_str_line (a :: b :: c :: t0)
    (List.drop ((a :: b :: c :: t0).length + 2) (List.replicate LINE_BUFFER_SIZE '\x00'))
  simp only [List.cons_append] at hloop hcs ⊢
  rw [hloop, hcs]
  simp only [response_code_to_int, List.getD_cons_succ, List.getD_cons_zero, List.map_cons,
    List.singleton_append, List.cons_append, List.nil_append]

/-- C8 (witness): on the lines "150-detail" and "150 OK" both lines are read and the
code 150 is returned. -/
theorem recv_response_multi_line_witness :
    recv_response "150-detail\n150 OK\nnext".toList
      = (["150-detail\n".toList, "150 OK\n".toList], .ok (150, "next".toList)) :=
  recv_response_multi_line '1' '5' '0' "-detail".toList [] "150 OK".toList "next".toList
    (by decide) (by decide) (by decide) (by decide) (by decide)

/-- C8 (counterexample): after the first line "150-a", the next line is "150 "
followed by 2043 characters `'x'`: it begins with the code and a space, and has 2047
bytes before its line feed. `recv_response` does not return 150: `read_line` stores
the line feed in the last cell of `buffer` and writes the NUL past its end. The same
holds with 4096 characters `'x'`, where the line itself runs past the end of the buffer. -/
theorem recv_response_long_last_line :
    (begins_with_code '1' '5' '0' ("150 ".toList ++ List.replicate 2043 'x') = true ∧
      recv_response
          ("150-a".toList ++ '\n' :: (("150 ".toList ++ List.replicate 2043 'x') ++ ['\n']))
        = (["150-a\n".toList], .error .line_overrun)) ∧
    (begins_with_code '1' '5' '0' ("150 ".toList ++ List.replicate 4096 'x') = true ∧
      recv_response
          ("150-a".toList ++ '\n' :: (("150 ".toList ++ List.replicate 4096 'x') ++ ['\n']))
        = (["150-a\n".toList], .error .line_overrun)) := by
  have hl : ∀ n, '\n' ∉ "150 ".toList ++ List.replicate n 'x' := by
    intro n h
    rcases List.mem_append.mp h with h | h
    · revert h; decide
    · have := List.eq_of_mem_replicate h
      revert this; decide
  refine ⟨⟨rfl, recv_response_overrun_second '1' '5' '0' "-a".toList _ [] (by decide)
      (by decide) (by decide) (hl 2043) ?_⟩,
    ⟨rfl, recv_response_overrun_second '1' '5' '0' "-a".toList _ [] (by decide)
      (by decide) (by decide) (hl 4096) ?_⟩⟩
  · rw [List.length_append, List.length_replicate]; decide
  · rw [List.length_append, List.length_replicate]; decide

/-! ## parse_pasv_addr and pasv -/

set_option maxRecDepth 100000 in
/-- The decimal form of a number up to 255: one to three digits, whose value is the number. -/
theorem decimal_byte : ∀ n, n < 256 →
    ((decimal n).all is_digit = true ∧ (decimal n).length ≤ 3 ∧
      decimal_value (decimal n) = n) := by
  decide

theorem wrap_int32_of_range {v : Int} (h0 : 0 ≤ v) (h1 : v < 2147483648) : wrap_int32 v = v := by
  unfold wrap_int32
  omega

theorem set_getD_self (a : List Int) (i : Nat) : a.set i (a.getD i 0) = a := by
  induction a generalizing i with
  | nil => simp
  | cons x xs ih =>
    cases i with
    | zero => simp
    | succ i => simpa using ih i

theorem decimal_fold_ge (ds : List Char) (hd : ∀ c ∈ ds, is_digit c = true) (r : Int)
    (hr : 0 ≤ r) : r ≤ ds.foldl (fun acc c => acc * 10 + digit_value c) r := by
  induction ds generalizing r with
  | nil => simp
  | cons c cs ih =>
    have hc := digit_value_bounds (hd c (by simp))
    have := ih (fun x hx => hd x (by simp [hx])) (r * 10 + digit_value c) (by omega)
    simp only [List.foldl_cons]
    omega

/-- The loop of `parse_pasv_addr` over the digits of one number: they are accumulated
into `a[i]`, provided the value stays an `int`. -/
theorem parse_pasv_addr_loop_digits (ds rest : List Char) (hd : ∀ c ∈ ds, is_digit c = true)
    (k i : Nat) (a : List Int) (hi : i < a.length) (hk : k + ds.length ≤ maxStrLen)
    (h0 : 0 ≤ a.getD i 0)
    (hv : ds.foldl (fun acc c => acc * 10 + digit_value c) (a.getD i 0) < 2147483648) :
    parse_pasv_addr_loop (ds ++ rest) k i a
      = parse_pasv_addr_loop rest (k + ds.length) i
          (a.set i (ds.foldl (fun acc c => acc * 10 + digit_value c) (a.getD i 0))) := by
  induction ds generalizing k a with
  | nil =>
    simp only [List.nil_append, List.length_nil, Nat.add_zero, List.foldl_nil]
    congr 1
    exact (set_getD_self a i).symm
  | cons c cs ih =>
    have hc : is_digit c = true := hd c (by simp)
    have hcs : ∀ x ∈ cs, is_digit x = true := fun x hx => hd x (by simp [hx])
    have hb := digit_value_bounds hc
    have hne : c ≠ ')' := by rintro rfl; revert hc; decide
    have hk' : k < maxStrLen := by simp only [List.length_cons] at hk; omega
    have hge := decimal_fold_ge cs hcs (a.getD i 0 * 10 + digit_value c) (by omega)
    simp only [List.foldl_cons] at hv
    have hw : wrap_int32 (a.getD i 0 * 10 + digit_value c) = a.getD i 0 * 10 + digit_value c :=
      wrap_int32_of_range (by omega) (by omega)
    rw [List.cons_append, parse_pasv_addr_loop, if_pos ⟨hne, hk'⟩, if_pos hc, if_pos hi, hw]
    have hget : (a.set i (a.getD i 0 * 10 + digit_value c)).getD i 0
        = a.getD i 0 * 10 + digit_value c := by
      rw [List.getD_eq_getElem _ _ (by simpa using hi)]
      simp
    rw [ih hcs (k + 1) (a.set i (a.getD i 0 * 10 + digit_value c)) (by simpa using hi)
      (by simp only [List.length_cons] at hk; omega) (by rw [hget]; omega) (by rw [hget]; exact hv)]
    rw [hget, List.set_set, List.foldl_cons]
    simp only [List.length_cons]
    congr 1
    omega

/-- The loop of `parse_pasv_addr` over the decimal form of a number up to 255, when
`a[i]` is still zero: the number is stored in `a[i]`. -/
theorem parse_pasv_addr_loop_number (n : Nat) (hn : n ≤ 255) (rest : List Char) (k i : Nat)
    (a : List Int) (hi : i < a.length) (hk : k + 3 ≤ maxStrLen) (h0 : a.getD i 0 = 0) :
    parse_pasv_addr_loop (decimal n ++ rest) k i a
      = parse_pasv_addr_loop rest (k + (decimal n).length) i (a.set i (n : Int)) := by
  obtain ⟨h1, h2, h3⟩ := decimal_byte n (by omega)
  have hd : ∀ c ∈ decimal n, is_digit c = true := by simpa using h1
  unfold decimal_value at h3
  rw [parse_pasv_addr_loop_digits (decimal n) rest hd k i a hi (by omega) (by omega)
    (by rw [h0, h3]; omega), h0, h3]

theorem parse_pasv_addr_loop_comma (rest : List Char) (k i : Nat) (a : List Int)
    (hk : k < maxStrLen) (hi : i < 6) :
    parse_pasv_addr_loop (',' :: rest) k i a = parse_pasv_addr_loop rest (k + 1) (i + 1) a := by
  rw [parse_pasv_addr_loop, if_pos ⟨by decide, hk⟩, if_neg (by decide), if_pos rfl,
    if_neg (by omega)]

theorem parse_pasv_addr_loop_paren (rest : List Char) (k i : Nat) (a : List Int) :
    parse_pasv_addr_loop (')' :: rest) k i a = .ok (')' :: rest, i, a) := by
  rw [parse_pasv_addr_loop, if_neg (by simp)]

theorem int_to_text_nat (n : Nat) : int_to_text (n : Int) = decimal n := rfl

/-- The six numbers of a PASV address, each up to 255, are parsed into the six cells. -/
theorem parse_pasv_addr_six (h1 h2 h3 h4 p1 p2 : Nat) (hh1 : h1 ≤ 255) (hh2 : h2 ≤ 255)
    (hh3 : h3 ≤ 255) (hh4 : h4 ≤ 255) (hp1 : p1 ≤ 255) (hp2 : p2 ≤ 255) (tail : CStr) :
    parse_pasv_addr (pasv_text [h1, h2, h3, h4, p1, p2] ++ ')' :: tail) [0, 0, 0, 0, 0, 0]
      = .ok [(h1 : Int), h2, h3, h4, p1, p2] := by
  have l1 := (decimal_byte h1 (by omega)).2.1
  have l2 := (decimal_byte h2 (by omega)).2.1
  have l3 := (decimal_byte h3 (by omega)).2.1
  have l4 := (decimal_byte h4 (by omega)).2.1
  have l5 := (decimal_byte p1 (by omega)).2.1
  have l6 := (decimal_byte p2 (by omega)).2.1
  unfold parse_pasv_addr
  simp only [pasv_text, List.append_assoc, List.cons_append]
  rw [parse_pasv_addr_loop_number h1 hh1 _ _ _ _ (by simp) (by simp [maxStrLen]) (by simp),
    parse_pasv_addr_loop_comma _ _ _ _ (by simp [maxStrLen]; omega) (by omega),
    parse_pasv_addr_loop_number h2 hh2 _ _ _ _ (by simp) (by simp [maxStrLen]; omega) (by simp),
    parse_pasv_addr_loop_comma _ _ _ _ (by simp [maxStrLen]; omega) (by omega),
    parse_pasv_addr_loop_number h3 hh3 _ _ _ _ (by simp) (by simp [maxStrLen]; omega) (by simp),
    parse_pasv_addr_loop_comma _ _ _ _ (by simp [maxStrLen]; omega) (by omega),
    parse_pasv_addr_loop_number h4 hh4 _ _ _ _ (by simp) (by simp [maxStrLen]; omega) (by simp),
    parse_pasv_addr_loop_comma _ _ _ _ (by simp [maxStrLen]; omega) (by omega),
    parse_pasv_addr_loop_number p1 hp1 _ _ _ _ (by simp) (by simp [maxStrLen]; omega) (by simp),
    parse_pasv_addr_loop_comma _ _ _ _ (by simp [maxStrLen]; omega) (by omega),
    parse_pasv_addr_loop_number p2 hp2 _ _ _ _ (by simp) (by simp [maxStrLen]; omega) (by simp),
    parse_pasv_addr_loop_paren]
  simp

/-- C10: for every six integers `h1 h2 h3 h4 p1 p2` in 0..255 written in decimal
without leading zeros, `parse_pasv_addr` applied to the text "h1,h2,h3,h4,p1,p2)",
whatever follows the parenthesis, succeeds and yields these six values in order, and
`pasv` derives from the line "227 Entering Passive Mode (h1,h2,h3,h4,p1,p2)..." the
address h1.h2.h3.h4 and the port `p1*256 + p2`; the line
"227 Entering Passive Mode (192,168,1,10,4,1)." yields 192.168.1.10 and 1025. -/
theorem pasv_address_of_six :
    (∀ (h1 h2 h3 h4 p1 p2 : Nat) (tail : CStr),
      h1 ≤ 255 → h2 ≤ 255 → h3 ≤ 255 → h4 ≤ 255 → p1 ≤ 255 → p2 ≤ 255 →
      parse_pasv_addr (pasv_text [h1, h2, h3, h4, p1, p2] ++ ')' :: tail) [0, 0, 0, 0, 0, 0]
        = .ok [(h1 : Int), h2, h3, h4, p1, p2] ∧
      pasv_address (line_pfx ++ (pasv_text [h1, h2, h3, h4, p1, p2] ++ ')' :: tail))
        = .ok (decimal h1 ++ ['.'] ++ decimal h2 ++ ['.'] ++ decimal h3 ++ ['.'] ++ decimal h4,
            (p1 : Int) * 256 + p2)) ∧
    pasv_address "227 Entering Passive Mode (192,168,1,10,4,1).".toList
      = .ok ("192.168.1.10".toList, 1025) := by
  have main : ∀ (h1 h2 h3 h4 p1 p2 : Nat) (tail : CStr),
      h1 ≤ 255 → h2 ≤ 255 → h3 ≤ 255 → h4 ≤ 255 → p1 ≤ 255 → p2 ≤ 255 →
      parse_pasv_addr (pasv_text [h1, h2, h3, h4, p1, p2] ++ ')' :: tail) [0, 0, 0, 0, 0, 0]
        = .ok [(h1 : Int), h2, h3, h4, p1, p2] ∧
      pasv_address (line_pfx ++ (pasv_text [h1, h2, h3, h4, p1, p2] ++ ')' :: tail))
        = .ok (decimal h1 ++ ['.'] ++ decimal h2 ++ ['.'] ++ decimal h3 ++ ['.'] ++ decimal h4,
            (p1 : Int) * 256 + p2) := by
    intro h1 h2 h3 h4 p1 p2 tail hh1 hh2 hh3 hh4 hp1 hp2
    have hparse := parse_pasv_addr_six h1 h2 h3 h4 p1 p2 hh1 hh2 hh3 hh4 hp1 hp2 tail
    refine ⟨hparse, ?_⟩
    unfold pasv_address
    have hpfx : strncmp line_pfx
        (line_pfx ++ (pasv_text [h1, h2, h3, h4, p1, p2] ++ ')' :: tail)) line_pfx.length = 0 := by
      rw [strncmp_eq_zero_iff, List.take_left' rfl, List.take_length]
    rw [if_neg (by rw [hpfx]; simp), List.drop_left' rfl]
    simp only [hparse, List.getD_cons_zero, List.getD_cons_succ, int_to_text_nat]
    rw [wrap_int32_of_range (by positivity) (by omega)]
  refine ⟨main, ?_⟩
  have h := (main 192 168 1 10 4 1 ".".toList (by decide) (by decide) (by decide) (by decide)
    (by decide) (by decide)).2
  have e : line_pfx ++ (pasv_text [192, 168, 1, 10, 4, 1] ++ ')' :: ".".toList)
      = "227 Entering Passive Mode (192,168,1,10,4,1).".toList := by decide
  rw [e] at h
  rw [h]
  decide

/-- C10 (witness): the numbers 127,0,0,1,200,13 give the port 51213. -/
theorem pasv_address_of_six_witness :
    pasv_address "227 Entering Passive Mode (127,0,0,1,200,13)".toList
      = .ok ("127.0.0.1".toList, 51213) := by
  have h := (pasv_address_of_six.1 127 0 0 1 200 13 [] (by decide) (by decide) (by decide)
    (by decide) (by decide) (by decide)).2
  have e : line_pfx ++ (pasv_text [127, 0, 0, 1, 200, 13] ++ [')'])
      = "227 Entering Passive Mode (127,0,0,1,200,13)".toList := by decide
  rw [e] at h
  rw [h]
  decide

/-! ## What parse_pasv_addr accepts and rejects -/

/-- A run of the loop of `parse_pasv_addr` that ends without an exception: it has
consumed a stretch of digits and commas, within the scan window, has moved `i` on by
the number of commas, and has stopped at a parenthesis or at the end of the window. -/
theorem parse_pasv_addr_loop_ok (rest : CStr) (k i : Nat) (a : List Int) (rest1 : CStr)
    (i1 : Nat) (a1 : List Int) (h : parse_pasv_addr_loop rest k i a = .ok (rest1, i1, a1)) :
    ∃ pre, rest = pre ++ rest1 ∧ (∀ c ∈ pre, (is_digit c = true ∨ c = ',') ∧ c ≠ ')') ∧
      i1 = i + pre.count ',' ∧ (pre ≠ [] → k + pre.length ≤ maxStrLen) ∧
      a1.length = a.length := by
  induction rest generalizing k i a with
  | nil =>
    rw [parse_pasv_addr_loop] at h
    by_cases hk : k < maxStrLen
    · rw [if_pos hk] at h; cases h
    · rw [if_neg hk] at h
      simp only [Except.ok.injEq, Prod.mk.injEq] at h
      obtain ⟨rfl, rfl, rfl⟩ := h
      exact ⟨[], by simp, by simp, by simp, by simp, rfl⟩
  | cons c cs ih =>
    rw [parse_pasv_addr_loop] at h
    by_cases hc : c ≠ ')' ∧ k < maxStrLen
    · rw [if_pos hc] at h
      by_cases hd : is_digit c = true
      · rw [if_pos hd] at h
        by_cases hi : i < a.length
        · rw [if_pos hi] at h
          obtain ⟨pre, h1, h2, h3, h4, h5⟩ := ih _ _ _ h
          have hne : c ≠ ',' := by rintro rfl; revert hd; decide
          refine ⟨c :: pre, by simp [h1], ?_, ?_, ?_, by simpa using h5⟩
          · intro x hx
            rcases List.mem_cons.mp hx with rfl | hx
            · exact ⟨Or.inl hd, hc.1⟩
            · exact h2 x hx
          · rw [List.count_cons_of_ne (Ne.symm hne)]; exact h3
          · intro _
            by_cases hp : pre = []
            · subst hp; simp only [List.length_cons, List.length_nil]; omega
            · have := h4 hp; simp only [List.length_cons]; omega
        · rw [if_neg hi] at h; cases h
      · rw [if_neg hd] at h
        by_cases hcm : c = ','
        · rw [if_pos hcm] at h
          by_cases h6 : i ≥ 6
          · rw [if_pos h6] at h; cases h
          · rw [if_neg h6] at h
            obtain ⟨pre, h1, h2, h3, h4, h5⟩ := ih _ _ _ h
            refine ⟨c :: pre, by simp [h1], ?_, ?_, ?_, h5⟩
            · intro x hx
              rcases List.mem_cons.mp hx with rfl | hx
              · exact ⟨Or.inr hcm, hc.1⟩
              · exact h2 x hx
            · subst hcm; rw [List.count_cons_self]; omega
            · intro _
              by_cases hp : pre = []
              · subst hp; simp only [List.length_cons, List.length_nil]; omega
              · have := h4 hp; simp only [List.length_cons]; omega
        · rw [if_neg hcm] at h; cases h
    · rw [if_neg hc] at h
      simp only [Except.ok.injEq, Prod.mk.injEq] at h
      obtain ⟨rfl, rfl, rfl⟩ := h
      exact ⟨[], by simp, by simp, by simp, by simp, rfl⟩

/-- An input that `parse_pasv_addr` accepts: a stretch of at most 24 digits and commas,
five of them commas, followed by a parenthesis. -/
theorem parse_pasv_addr_ok (buff : CStr) (a a1 : List Int)
    (h : parse_pasv_addr buff a = .ok a1) :
    ∃ pre tail, buff = pre ++ ')' :: tail ∧
      (∀ c ∈ pre, (is_digit c = true ∨ c = ',') ∧ c ≠ ')') ∧
      pre.count ',' = 5 ∧ pre.length ≤ 24 ∧ a1.length = a.length ∧
      parse_pasv_addr_loop buff 0 0 a = .ok (')' :: tail, 5, a1) := by
  unfold parse_pasv_addr at h
  cases hl : parse_pasv_addr_loop buff 0 0 a with
  | error e => rw [hl] at h; cases h
  | ok r =>
    obtain ⟨rest1, i1, a2⟩ := r
    rw [hl] at h
    simp only at h
    by_cases h1 : rest1.head? ≠ some ')'
    · rw [if_pos h1] at h; cases h
    · rw [if_neg h1] at h
      by_cases h2 : i1 ≥ 6
      · rw [if_pos h2] at h; cases h
      · rw [if_neg h2] at h
        by_cases h3 : i1 + 1 < 6
        · rw [if_pos h3] at h; cases h
        · rw [if_neg h3] at h
          simp only [Except.ok.injEq] at h
          subst h
          obtain ⟨pre, e1, e2, e3, e4, e5⟩ := parse_pasv_addr_loop_ok _ _ _ _ _ _ _ hl
          have hi5 : i1 = 5 := by omega
          cases rest1 with
          | nil => simp at h1
          | cons x xs =>
            simp only [List.head?_cons, ne_eq, Option.some.injEq, not_not] at h1
            subst h1
            refine ⟨pre, xs, e1, e2, by omega, ?_, e5, by rw [hi5]⟩
            by_cases hp : pre = []
            · subst hp; simp
            · have := e4 hp; simp [maxStrLen] at this; omega

theorem pasv_join_cons_cons (r r1 : List Char) (rs : List (List Char)) :
    pasv_join (r :: r1 :: rs) = r ++ ',' :: pasv_join (r1 :: rs) := by
  rw [pasv_join]

/-- A stretch of digits and commas is a sequence of digit runs separated by commas,
one run more than there are commas. -/
theorem pasv_join_of_digits_commas (pre : List Char)
    (h : ∀ c ∈ pre, is_digit c = true ∨ c = ',') :
    ∃ runs, runs.length = pre.count ',' + 1 ∧ pre = pasv_join runs ∧
      ∀ r ∈ runs, ∀ c ∈ r, is_digit c = true := by
  induction pre with
  | nil => exact ⟨[[]], by simp, by simp [pasv_join], by simp⟩
  | cons c cs ih =>
    obtain ⟨runs, h1, h2, h3⟩ := ih (fun x hx => h x (by simp [hx]))
    cases runs with
    | nil => simp at h1
    | cons r rs =>
      by_cases hc : c = ','
      · subst hc
        refine ⟨[] :: r :: rs, by simp [h1], by rw [pasv_join_cons_cons, h2]; simp, ?_⟩
        intro x hx
        rcases List.mem_cons.mp hx with rfl | hx
        · simp
        · exact h3 x hx
      · have hd : is_digit c = true := by
          rcases h c (by simp) with hd | hd
          · exact hd
          · exact absurd hd hc
        refine ⟨(c :: r) :: rs, ?_, ?_, ?_⟩
        · rw [List.count_cons_of_ne (Ne.symm hc)]; simpa using h1
        · cases rs with
          | nil => simp [pasv_join] at h2 ⊢; exact h2
          | cons r1 rs1 =>
            rw [pasv_join_cons_cons] at h2 ⊢
            rw [h2]; simp
        · intro x hx
          rcases List.mem_cons.mp hx with rfl | hx
          · intro y hy
            rcases List.mem_cons.mp hy with rfl | hy
            · exact hd
            · exact h3 r (by simp) y hy
          · exact h3 x (by simp [hx])

/-- The loop of `parse_pasv_addr` over a run of digits within the scan window: the
digits are accumulated into `a[i]`, every step reduced to an `int`. -/
theorem parse_pasv_addr_loop_run (ds rest : List Char) (hd : ∀ c ∈ ds, is_digit c = true)
    (k i : Nat) (a : List Int) (hi : i < a.length) (hk : k + ds.length ≤ maxStrLen) :
    parse_pasv_addr_loop (ds ++ rest) k i a
      = parse_pasv_addr_loop rest (k + ds.length) i
          (a.set i (ds.foldl (fun acc c => wrap_int32 (acc * 10 + digit_value c))
            (a.getD i 0))) := by
  induction ds generalizing k a with
  | nil =>
    simp only [List.nil_append, List.length_nil, Nat.add_zero, List.foldl_nil]
    congr 1
    exact (set_getD_self a i).symm
  | cons c cs ih =>
    have hc : is_digit c = true := hd c (by simp)
    have hcs : ∀ x ∈ cs, is_digit x = true := fun x hx => hd x (by simp [hx])
    have hne : c ≠ ')' := by rintro rfl; revert hc; decide
    have hk1 : k < maxStrLen := by simp only [List.length_cons] at hk; omega
    rw [List.cons_append, parse_pasv_addr_loop, if_pos ⟨hne, hk1⟩, if_pos hc, if_pos hi]
    have hget : ∀ v : Int, (a.set i v).getD i 0 = v := by
      intro v
      rw [List.getD_eq_getElem _ _ (by simpa using hi)]
      simp
    rw [ih hcs (k + 1) _ (by simpa using hi) (by simp only [List.length_cons] at hk; omega)]
    rw [hget, List.set_set, List.foldl_cons]
    simp only [List.length_cons]
    congr 1
    omega


theorem getD_set_ne (a : List Int) (i j : Nat) (v : Int) (h : i ≠ j) :
    (a.set i v).getD j 0 = a.getD j 0 := by
  simp [List.getD_eq_getElem?_getD, List.getElem?_set_ne h]

/-- The loop of `parse_pasv_addr` over digit runs separated by commas, within the scan
window and within the array, the cells from `i` on being cleared: every run is
accumulated into its own cell. -/
theorem parse_pasv_addr_loop_runs (runs : List (List Char)) (hne : runs ≠ [])
    (hd : ∀ r ∈ runs, ∀ c ∈ r, is_digit c = true) (rest : List Char) (k i : Nat)
    (a : List Int) (ha : a.length = 6) (hi : i + runs.length ≤ 6)
    (hk : k + (pasv_join runs).length ≤ maxStrLen) (hz : ∀ j, i ≤ j → a.getD j 0 = 0) :
    parse_pasv_addr_loop (pasv_join runs ++ rest) k i a
      = parse_pasv_addr_loop rest (k + (pasv_join runs).length) (i + runs.length - 1)
          (a.take i ++ runs.map accumulate_int ++ a.drop (i + runs.length)) := by
  induction runs generalizing k i a with
  | nil => exact absurd rfl hne
  | cons r rs ih =>
    have hr : ∀ c ∈ r, is_digit c = true := hd r (by simp)
    cases rs with
    | nil =>
      simp only [List.length_cons, List.length_nil] at hi
      simp only [pasv_join] at hk ⊢
      rw [parse_pasv_addr_loop_run r rest hr k i a (by omega) hk, hz i (le_refl i)]
      have : i + [r].length - 1 = i := by simp
      rw [this, set_eq_take_cons_drop a i _ (by omega)]
      simp [accumulate_int]
    | cons r1 rs1 =>
      simp only [List.length_cons] at hi
      rw [pasv_join_cons_cons] at hk ⊢
      simp only [List.length_append, List.length_cons] at hk
      rw [List.append_assoc, parse_pasv_addr_loop_run r _ hr k i a (by omega) (by omega),
        hz i (le_refl i), List.cons_append,
        parse_pasv_addr_loop_comma _ _ _ _ (by omega) (by omega),
        ih (by simp) (fun x hx => hd x (by simp [hx])) (k + r.length + 1) (i + 1) _
          (by simpa using ha) (by simp only [List.length_cons]; omega) (by omega)
          (fun j hj => by rw [getD_set_ne _ _ _ _ (by omega)]; exact hz j (by omega))]
      have e1 : k + r.length + 1 + (pasv_join (r1 :: rs1)).length
          = k + (r ++ ',' :: pasv_join (r1 :: rs1)).length := by
        simp only [List.length_append, List.length_cons]; omega
      have e2 : i + 1 + (r1 :: rs1).length - 1 = i + (r :: r1 :: rs1).length - 1 := by
        simp only [List.length_cons]; omega
      have e3 : i + 1 + (r1 :: rs1).length = i + (r :: r1 :: rs1).length := by
        simp only [List.length_cons]; omega
      rw [e1, e2, e3, take_succ_set a i _ (by omega),
        List.drop_set_of_lt _ a (by simp only [List.length_cons]; omega)]
      simp [accumulate_int]

theorem accumulate_fold_eq (ds : List Char) (hd : ∀ c ∈ ds, is_digit c = true) (r : Int)
    (hr : 0 ≤ r)
    (hv : ds.foldl (fun acc c => acc * 10 + digit_value c) r < 2147483648) :
    ds.foldl (fun acc c => wrap_int32 (acc * 10 + digit_value c)) r
      = ds.foldl (fun acc c => acc * 10 + digit_value c) r := by
  induction ds generalizing r with
  | nil => rfl
  | cons c cs ih =>
    have hc := digit_value_bounds (hd c (by simp))
    have hcs : ∀ x ∈ cs, is_digit x = true := fun x hx => hd x (by simp [hx])
    have hge := decimal_fold_ge cs hcs (r * 10 + digit_value c) (by omega)
    simp only [List.foldl_cons] at hv ⊢
    rw [wrap_int32_of_range (by omega) (by omega)]
    exact ih hcs _ (by omega) hv

/-- A run of digits whose decimal value is an `int` is accumulated to that value. -/
theorem accumulate_int_eq (ds : List Char) (hd : ∀ c ∈ ds, is_digit c = true)
    (hv : decimal_value ds < 2147483648) : accumulate_int ds = decimal_value ds :=
  accumulate_fold_eq ds hd 0 (le_refl 0) hv

/-- What `parse_pasv_addr` accepts, and what it then returns: six digit runs
separated by commas and closed by a parenthesis, and the six accumulated values. -/
theorem parse_pasv_addr_accepts (buff : CStr) (a1 : List Int)
    (h : parse_pasv_addr buff [0, 0, 0, 0, 0, 0] = .ok a1) :
    ∃ runs tail, runs.length = 6 ∧ (∀ r ∈ runs, ∀ c ∈ r, is_digit c = true) ∧
      buff = pasv_join runs ++ ')' :: tail ∧ a1 = runs.map accumulate_int := by
  obtain ⟨pre, tail, h1, h2, h3, h4, _, h6⟩ := parse_pasv_addr_ok buff _ a1 h
  obtain ⟨runs, r1, r2, r3⟩ := pasv_join_of_digits_commas pre (fun c hc => (h2 c hc).1)
  rw [h3] at r1
  refine ⟨runs, tail, r1, r3, by rw [h1, r2], ?_⟩
  have hne : runs ≠ [] := by intro e; rw [e] at r1; simp at r1
  have hrun := parse_pasv_addr_loop_runs runs hne r3 (')' :: tail) 0 0 [0, 0, 0, 0, 0, 0] rfl
    (by omega) (by rw [← r2]; simp [maxStrLen]; omega)
    (fun j _ => by
      rcases j with _ | _ | _ | _ | _ | _ | j <;> simp)
  rw [h1, r2, hrun, parse_pasv_addr_loop_paren] at h6
  simp only [Except.ok.injEq, Prod.mk.injEq, true_and] at h6
  rw [← h6.2]
  have hl : (runs.map accumulate_int).length = 6 := by simp [r1]
  simp [r1]


/-- The loop of `parse_pasv_addr` accesses `a[i]` outside the array only at a digit
that has at least `a.length - i` commas before it in the text before the first `')'`. -/
theorem parse_pasv_addr_loop_out_of_bounds (rest : CStr) (k i : Nat) (a : List Int) (j : Nat)
    (h : parse_pasv_addr_loop rest k i a = .error (.pasv_out_of_bounds j)) :
    ∃ p c q, rest.takeWhile (fun c => c != ')') = p ++ c :: q ∧ is_digit c = true ∧
      a.length ≤ i + p.count ',' := by
  induction rest generalizing k i a with
  | nil =>
    rw [parse_pasv_addr_loop] at h
    by_cases hk : k < maxStrLen
    · rw [if_pos hk] at h; cases h
    · rw [if_neg hk] at h; cases h
  | cons c cs ih =>
    rw [parse_pasv_addr_loop] at h
    by_cases hc : c ≠ ')' ∧ k < maxStrLen
    · rw [if_pos hc] at h
      have htw : (c :: cs).takeWhile (fun c => c != ')')
          = c :: cs.takeWhile (fun c => c != ')') := by
        rw [List.takeWhile_cons_of_pos (by simpa using hc.1)]
      by_cases hd : is_digit c = true
      · rw [if_pos hd] at h
        have hne : c ≠ ',' := by rintro rfl; revert hd; decide
        by_cases hi : i < a.length
        · rw [if_pos hi] at h
          obtain ⟨p, d, q, h1, h2, h3⟩ := ih _ _ _ h
          refine ⟨c :: p, d, q, by rw [htw, h1]; rfl, h2, ?_⟩
          rw [List.count_cons_of_ne (Ne.symm hne)]
          simpa using h3
        · exact ⟨[], c, _, htw, hd, by simp only [List.count_nil]; omega⟩
      · rw [if_neg hd] at h
        by_cases hcomma : c = ','
        · rw [if_pos hcomma] at h
          by_cases h6 : i ≥ 6
          · rw [if_pos h6] at h; cases h
          · rw [if_neg h6] at h
            obtain ⟨p, d, q, h1, h2, h3⟩ := ih _ _ _ h
            refine ⟨c :: p, d, q, by rw [htw, h1]; rfl, h2, ?_⟩
            rw [hcomma, List.count_cons_self]
            omega
        · rw [if_neg hcomma] at h; cases h
    · rw [if_neg hc] at h; cases h

/-- The same for `parse_pasv_addr`, whose own tests come after the loop. -/
theorem parse_pasv_addr_out_of_bounds (buff : CStr) (a : List Int) (j : Nat)
    (h : parse_pasv_addr buff a = .error (.pasv_out_of_bounds j)) :
    ∃ p c q, buff.takeWhile (fun c => c != ')') = p ++ c :: q ∧ is_digit c = true ∧
      a.length ≤ p.count ',' := by
  unfold parse_pasv_addr at h
  cases hl : parse_pasv_addr_loop buff 0 0 a with
  | error e =>
    rw [hl] at h
    simp only [Except.error.injEq] at h
    subst h
    simpa using parse_pasv_addr_loop_out_of_bounds buff 0 0 a j hl
  | ok r =>
    obtain ⟨rest, i, a1⟩ := r
    rw [hl] at h
    simp only at h
    split_ifs at h <;> cases h

/-- C11 (amended): `parse_pasv_addr` returns no address, and ends with an error, for
every input in which the text before the first `')'` holds fewer or more than five
commas, or holds a character that is neither a digit nor a comma, and for every input
that has no `')'` among its first 25 characters. The error is one of the exceptions
of the source unless a digit of that text follows a sixth comma, where `a[6]` is
accessed. -/
theorem parse_pasv_addr_rejects (buff : CStr) (a : List Int)
    (h : (buff.takeWhile (fun c => c != ')')).count ',' ≠ 5 ∨
      (∃ c ∈ buff.takeWhile (fun c => c != ')'), is_digit c = false ∧ c ≠ ',') ∨
      ')' ∉ buff.take 25) :
    ∃ e, parse_pasv_addr buff a = .error e ∧
      ∀ j, e = .pasv_out_of_bounds j →
        ∃ p c q, buff.takeWhile (fun c => c != ')') = p ++ c :: q ∧ is_digit c = true ∧
          a.length ≤ p.count ',' := by
  cases hp : parse_pasv_addr buff a with
  | error e => exact ⟨e, rfl, fun j hj => parse_pasv_addr_out_of_bounds buff a j (hj ▸ hp)⟩
  | ok a1 =>
    exfalso
    obtain ⟨pre, tail, h1, h2, h3, h4, _, _⟩ := parse_pasv_addr_ok buff a a1 hp
    have htw : buff.takeWhile (fun c => c != ')') = pre := by
      rw [h1, List.takeWhile_append_of_pos (fun c hc => by simpa using (h2 c hc).2)]
      simp
    rw [htw] at h
    rcases h with h | ⟨c, hc, hnd, hnc⟩ | h
    · exact h h3
    · rcases (h2 c hc).1 with hd | hd
      · rw [hd] at hnd; cases hnd
      · exact hnc hd
    · apply h
      rw [h1, List.take_append_eq_append_take]
      apply List.mem_append_right
      obtain ⟨m, hm⟩ : ∃ m, 25 - pre.length = m + 1 := ⟨24 - pre.length, by omega⟩
      rw [hm, List.take_succ_cons]
      exact List.mem_cons_self _ _

/-- C11 (witness): "1,2,3,4,5)" holds four commas, "1,2,x,4,5,6)" holds an `'x'`,
and 25 digits `'1'` hold no parenthesis. -/
theorem parse_pasv_addr_rejects_witness :
    (∃ e, parse_pasv_addr "1,2,3,4,5)".toList [0, 0, 0, 0, 0, 0] = .error e) ∧
    (∃ e, parse_pasv_addr "1,2,x,4,5,6)".toList [0, 0, 0, 0, 0, 0] = .error e) ∧
    (∃ e, parse_pasv_addr (List.replicate 25 '1') [0, 0, 0, 0, 0, 0] = .error e) :=
  ⟨(parse_pasv_addr_rejects _ _ (Or.inl (by decide))).imp (fun _ h => h.1),
   (parse_pasv_addr_rejects _ _
      (Or.inr (Or.inl ⟨'x', by decide, by decide, by decide⟩))).imp (fun _ h => h.1),
   (parse_pasv_addr_rejects _ _ (Or.inr (Or.inr (by decide)))).imp (fun _ h => h.1)⟩

/-- C11 (counterexample): the text before the parenthesis of "1,2,3,4,5,)" holds five
numbers, and `parse_pasv_addr` returns an address, the sixth value being 0; the text
"192,168,001,010,004,0001)" has its parenthesis as 25th character, none among the
first 24, and `parse_pasv_addr` returns an address. -/
theorem parse_pasv_addr_accepts_five_numbers :
    parse_pasv_addr "1,2,3,4,5,)".toList [0, 0, 0, 0, 0, 0] = .ok [1, 2, 3, 4, 5, 0] ∧
    ')' ∉ "192,168,001,010,004,0001)".toList.take 24 ∧
    parse_pasv_addr "192,168,001,010,004,0001)".toList [0, 0, 0, 0, 0, 0]
      = .ok [192, 168, 1, 10, 4, 1] := by
  decide

/-- C12 (amended): every address that `parse_pasv_addr` accepts consists of six
values, those of the six digit runs of the text, each reduced to an `int`; the
parser sets no range: the values lie in 0..255, and the port `a[4]*256 + a[5]` that
`pasv` computes in 0..65535, whenever every number of the text is at most 255. -/
theorem parse_pasv_addr_values (buff : CStr) (a1 : List Int)
    (h : parse_pasv_addr buff [0, 0, 0, 0, 0, 0] = .ok a1) :
    ∃ runs tail, runs.length = 6 ∧ (∀ r ∈ runs, ∀ c ∈ r, is_digit c = true) ∧
      buff = pasv_join runs ++ ')' :: tail ∧ a1 = runs.map accumulate_int ∧
      ((∀ r ∈ runs, decimal_value r ≤ 255) →
        a1 = runs.map decimal_value ∧ (∀ v ∈ a1, 0 ≤ v ∧ v ≤ 255) ∧
        0 ≤ wrap_int32 (a1.getD 4 0 * 256 + a1.getD 5 0) ∧
        wrap_int32 (a1.getD 4 0 * 256 + a1.getD 5 0) ≤ 65535) := by
  obtain ⟨runs, tail, h1, h2, h3, h4⟩ := parse_pasv_addr_accepts buff a1 h
  refine ⟨runs, tail, h1, h2, h3, h4, ?_⟩
  intro hb
  have hmap : a1 = runs.map decimal_value := by
    rw [h4]
    apply List.map_congr_left
    intro r hr
    exact accumulate_int_eq r (h2 r hr) (by have := hb r hr; omega)
  have hrange : ∀ v ∈ a1, 0 ≤ v ∧ v ≤ 255 := by
    intro v hv
    rw [hmap] at hv
    obtain ⟨r, hr, rfl⟩ := List.mem_map.mp hv
    exact ⟨(decimal_fold_bounds r (h2 r hr) 0 (le_refl 0)).1, hb r hr⟩
  have hlen : a1.length = 6 := by rw [h4]; simp [h1]
  have h4r := hrange (a1.getD 4 0) (by
    rw [List.getD_eq_getElem _ _ (by omega)]; exact List.getElem_mem _)
  have h5r := hrange (a1.getD 5 0) (by
    rw [List.getD_eq_getElem _ _ (by omega)]; exact List.getElem_mem _)
  rw [wrap_int32_of_range (by omega) (by omega)]
  exact ⟨hmap, hrange, by omega, by omega⟩

/-- C12 (witness): "192,168,1,10,4,1)" is accepted with six values up to 255. -/
theorem parse_pasv_addr_values_witness :
    ∃ runs tail, runs.length = 6 ∧ (∀ r ∈ runs, ∀ c ∈ r, is_digit c = true) ∧
      "192,168,1,10,4,1)".toList = pasv_join runs ++ ')' :: tail ∧
      [(192 : Int), 168, 1, 10, 4, 1] = runs.map accumulate_int ∧
      ((∀ r ∈ runs, decimal_value r ≤ 255) →
        [(192 : Int), 168, 1, 10, 4, 1] = runs.map decimal_value ∧
        (∀ v ∈ [(192 : Int), 168, 1, 10, 4, 1], 0 ≤ v ∧ v ≤ 255) ∧
        0 ≤ wrap_int32 (([(192 : Int), 168, 1, 10, 4, 1]).getD 4 0 * 256
          + ([(192 : Int), 168, 1, 10, 4, 1]).getD 5 0) ∧
        wrap_int32 (([(192 : Int), 168, 1, 10, 4, 1]).getD 4 0 * 256
          + ([(192 : Int), 168, 1, 10, 4, 1]).getD 5 0) ≤ 65535) :=
  parse_pasv_addr_values "192,168,1,10,4,1)".toList [192, 168, 1, 10, 4, 1] (by decide)

/-- C12 (counterexample): "999,1,1,1,999,999)" is accepted with the values 999, and
from the line "227 Entering Passive Mode (999,1,1,1,999,999)" `pasv` derives the port
256743, above 65535. -/
theorem parse_pasv_addr_accepts_999 :
    parse_pasv_addr "999,1,1,1,999,999)".toList [0, 0, 0, 0, 0, 0]
      = .ok [999, 1, 1, 1, 999, 999] ∧
    pasv_address "227 Entering Passive Mode (999,1,1,1,999,999)".toList
      = .ok ("999.1.1.1".toList, 256743) := by
  decide

/-- C20: on "1,2,3,4,5,6,7)" the loop of `parse_pasv_addr` passes the sixth comma with
`i = 5`, which the test `i >= 6` lets through, moves `i` to 6 and then accumulates the
digit `'7'` into `a[6]`, outside the six cells. -/
theorem parse_pasv_addr_seventh_number :
    parse_pasv_addr_loop "1,2,3,4,5,6,7)".toList 0 0 [0, 0, 0, 0, 0, 0]
      = parse_pasv_addr_loop "7)".toList 12 6 [1, 2, 3, 4, 5, 6] ∧
    parse_pasv_addr_loop "7)".toList 12 6 [1, 2, 3, 4, 5, 6] = .error (.pasv_out_of_bounds 6) ∧
    parse_pasv_addr "1,2,3,4,5,6,7)".toList [0, 0, 0, 0, 0, 0]
      = .error (.pasv_out_of_bounds 6) := by
  decide

/-! ## The registry of the FTP interpreter -/

/-- C16: the line "pasv" is not dispatched: `cmd_pasv` is defined in
FTPCommandInterpreter.cpp but no `register_command` call registers a pattern "pasv",
so `execute` throws "Wrong command" and invokes no handler, whatever the handlers do. -/
theorem execute_pasv_wrong_command (env : Env FTPHandler) :
    execute_words "pasv".toList = .ok ["pasv".toList] ∧
    (∀ cmd ∈ ftp_commands, cmd.action ≠ FTPHandler.cmd_pasv) ∧
    execute env ftp_commands "pasv".toList = ([], .error .wrong_command) := by
  refine ⟨by decide, by decide, ?_⟩
  rfl

/-- The nine registered verbs are dispatched to their handlers: the words of each
verb, with any words for STRING slots and any words `validate_path` accepts for PATH
slots, reach the handler of that verb with the argument words as parameters. -/
theorem ftp_commands_dispatch (env : Env FTPHandler) (user pass path : CStr)
    (hpath : validate_path path = .ok ()) :
    (try_execute env ftp_commands ["login".toList, user, pass]).1
      = [(FTPHandler.cmd_login, Parameter.of_str "user".toList user
          :: Parameter.of_str "pass".toList pass :: List.replicate 8 env.default_parameter)] ∧
    (try_execute env ftp_commands ["logout".toList]).1
      = [(FTPHandler.cmd_logout, List.replicate 10 env.default_parameter)] ∧
    (try_execute env ftp_commands ["help".toList]).1
      = [(FTPHandler.cmd_help, List.replicate 10 env.default_parameter)] ∧
    (try_execute env ftp_commands ["list".toList]).1
      = [(FTPHandler.cmd_list0, List.replicate 10 env.default_parameter)] ∧
    (try_execute env ftp_commands ["list".toList, path]).1
      = [(FTPHandler.cmd_list1, Parameter.of_str "path".toList path
          :: List.replicate 9 env.default_parameter)] ∧
    (try_execute env ftp_commands ["put".toList, path]).1
      = [(FTPHandler.cmd_put, Parameter.of_str "path".toList path
          :: List.replicate 9 env.default_parameter)] ∧
    (try_execute env ftp_commands ["get".toList, path]).1
      = [(FTPHandler.cmd_retr, Parameter.of_str "path".toList path
          :: List.replicate 9 env.default_parameter)] ∧
    (try_execute env ftp_commands ["ascii".toList]).1
      = [(FTPHandler.cmd_ascii, List.replicate 10 env.default_parameter)] ∧
    (try_execute env ftp_commands ["binary".toList]).1
      = [(FTPHandler.cmd_binary, List.replicate 10 env.default_parameter)] := by
  refine ⟨rfl, rfl, rfl, rfl, ?_, ?_, ?_, rfl, rfl⟩
  all_goals
    simp only [try_execute, try_execute_loop, ftp_commands, try_parse_command, try_parse_loop,
      try_match_token, Token.of_literal, Token.of_param, hpath]
    rfl


/-! ## Parameters at the handler boundary -/

/-- C17: a STRING or PATH slot hands its word to the handler as a parameter readable
through `get_value_str`, but the parameter of an INTEGER slot is not readable through
`get_value_int`: the constructor for an integer parameter tags the value as STRING,
so `get_value_int` throws "Invalid parameter type". On the registry "port <n>" and
the words "port 21" the handler receives such a parameter. -/
theorem get_value_int_of_integer_slot :
    (∀ name word, (Parameter.of_str name word).get_value_str = .ok (some word)) ∧
    (∀ name v, (Parameter.of_int name v).get_value_int = .error (.invalid_parameter_type name)) ∧
    slot_value (Token.of_param 0 "n" ParameterType.INTEGER) "21".toList
      = some (Parameter.of_int "n".toList 21) ∧
    try_execute (env_returning Nat) port_commands ["port".toList, "21".toList]
      = ([(0, Parameter.of_int "n".toList 21
            :: List.replicate 9 (env_returning Nat).default_parameter)], .ok true) ∧
    (Parameter.of_int "n".toList 21).get_value_int
      = .error (.invalid_parameter_type "n".toList) := by
  refine ⟨fun _ _ => rfl, fun _ _ => rfl, by decide, by decide, by decide⟩

/-! ## A failing INTEGER slot -/

/-- The loop of `try_execute` over the patterns `pre`, all tried and rejected, goes on
with the patterns that follow. -/
theorem try_execute_loop_append {H : Type} (env : Env H) (pre rest : List (Command H))
    (words : List CStr) (pms : List Parameter)
    (h : try_execute_loop env pre words pms = ([], .ok false)) :
    ∃ pms1, try_execute_loop env (pre ++ rest) words pms
      = try_execute_loop env rest words pms1 := by
  induction pre generalizing pms with
  | nil => exact ⟨pms, rfl⟩
  | cons c cs ih =>
    rw [try_execute_loop] at h
    rw [List.cons_append, try_execute_loop]
    cases hp : try_parse_command c words pms with
    | error e => rw [hp] at h; simp at h
    | ok r =>
      obtain ⟨b, pms1⟩ := r
      cases b with
      | true => rw [hp] at h; simp at h
      | false =>
        rw [hp] at h
        simp only at h ⊢
        exact ih pms1 h

/-- The walk of `try_parse_command` over tokens that accept their words, up to an
INTEGER slot whose word `my_atoi` does not parse: it throws. -/
theorem try_parse_loop_integer_failure (toks1 toks2 : List Token) (tk : Token)
    (ws1 ws2 : List CStr) (w : CStr)
    (hacc : List.Forall₂ (fun t x => token_accepts t x = true) toks1 ws1)
    (hlit : tk.literal = none) (hty : tk.param_type = ParameterType.INTEGER)
    (hw : ∃ e, my_atoi w = .error e) (pms : List Parameter) (k : Nat) (hk : k ≤ pms.length) :
    ∃ e, try_parse_loop (toks1 ++ tk :: toks2) (ws1 ++ w :: ws2) pms k = .error e := by
  induction hacc generalizing pms k with
  | nil =>
    obtain ⟨e, he⟩ := hw
    exact ⟨e, by simp [try_parse_loop, try_match_token, hlit, hty, he]⟩
  | @cons t x ts xs htx _ ih =>
    rw [List.cons_append, List.cons_append, try_parse_loop]
    cases hm : try_match_token t x pms k with
    | error e => exact ⟨e, rfl⟩
    | ok r =>
      obtain ⟨b, p1, k1⟩ := r
      obtain ⟨hb, hlen, hk1, _⟩ := try_match_token_ok hk hm
      rw [htx] at hb
      subst hb
      simp only
      exact ih p1 k1 (by omega)

/-- C18: when a pattern that is reached (every pattern registered before it has been
tried and rejected) has its tokens accept the words up to an INTEGER slot, and the
word of that slot does not parse as an integer, `try_execute` ends with an error:
no later pattern is tried, whatever patterns follow, and no handler is invoked. -/
theorem try_execute_integer_failure {H : Type} (env : Env H) (pre post : List (Command H))
    (cmd : Command H) (words : List CStr) (toks1 toks2 : List Token) (tk : Token)
    (ws1 ws2 : List CStr) (w : CStr)
    (hpre : try_execute env pre words = ([], .ok false))
    (hcmd : cmd.tokens = toks1 ++ tk :: toks2) (hwords : words = ws1 ++ w :: ws2)
    (hacc : List.Forall₂ (fun t x => token_accepts t x = true) toks1 ws1)
    (hlit : tk.literal = none) (hty : tk.param_type = ParameterType.INTEGER)
    (hw : ∃ e, my_atoi w = .error e) :
    ∃ e, try_execute env (pre ++ cmd :: post) words = ([], .error e) := by
  unfold try_execute at hpre ⊢
  obtain ⟨pms1, h1⟩ := try_execute_loop_append env pre (cmd :: post) words _ hpre
  obtain ⟨e, he⟩ := try_parse_loop_integer_failure toks1 toks2 tk ws1 ws2 w hacc hlit hty hw
    pms1 0 (Nat.zero_le _)
  refine ⟨e, ?_⟩
  rw [h1, try_execute_loop, try_parse_command, hcmd, hwords, he]

/-- C18 (witness): the registry "port <n:INTEGER>", "port <s:STRING>" and the words
"port 12a": the first pattern throws at "12a", although the second would match. -/
theorem try_execute_integer_failure_witness :
    pattern_matches { action := 1, tokens := [Token.of_literal "port",
        Token.of_param 0 "s" ParameterType.STRING] : Command Nat }
      ["port".toList, "12a".toList] = true ∧
    ∃ e, try_execute (env_returning Nat) port_commands ["port".toList, "12a".toList]
      = ([], .error e) :=
  ⟨by decide,
   try_execute_integer_failure (env_returning Nat) []
    [{ action := 1, tokens := [Token.of_literal "port", Token.of_param 0 "s" ParameterType.STRING] }]
    { action := 0, tokens := [Token.of_literal "port", Token.of_param 0 "n" ParameterType.INTEGER] }
    ["port".toList, "12a".toList] [Token.of_literal "port"] []
    (Token.of_param 0 "n" ParameterType.INTEGER) ["port".toList] [] "12a".toList
    rfl rfl rfl (List.Forall₂.cons (by decide) List.Forall₂.nil) rfl rfl
    ⟨.atoi_invalid_character 'a', by decide⟩⟩


/-! ## The registered patterns are unambiguous -/

/-- A pattern that matches has as many tokens as there are words, and when its first
token is a literal, the literal agrees with the first word on the characters compared. -/
theorem pattern_matches_key {H : Type} (cmd : Command H) (words : List CStr)
    (h : pattern_matches cmd words = true) :
    cmd.tokens.length = words.length ∧
      ((cmd.tokens.head?.bind Token.literal).isSome = true →
        first_literal cmd = words.head?.map (List.take 256)) := by
  unfold pattern_matches at h
  simp only [Bool.and_eq_true, decide_eq_true_eq, List.all_eq_true] at h
  refine ⟨h.1, ?_⟩
  intro hsome
  unfold first_literal
  cases ht : cmd.tokens with
  | nil => rw [ht] at hsome; simp at hsome
  | cons t ts =>
    cases hw : words with
    | nil => rw [ht, hw] at h; simp at h
    | cons w ws =>
      have hacc := h.2 (t, w) (by rw [ht, hw]; simp)
      rw [ht] at hsome
      simp only [List.head?_cons, Option.some_bind] at hsome ⊢
      cases hl : t.literal with
      | none => rw [hl] at hsome; simp at hsome
      | some lit =>
        simp only [token_accepts, hl, decide_eq_true_eq] at hacc
        simp [hacc]

/-- In a list with an element that satisfies `p`, the first such element splits the list. -/
theorem first_match_split {α : Type} (p : α → Bool) (l : List α) (h : ∃ x ∈ l, p x = true) :
    ∃ pre c post, l = pre ++ c :: post ∧ (∀ y ∈ pre, p y = false) ∧ p c = true := by
  induction l with
  | nil => obtain ⟨x, hx, _⟩ := h; simp at hx
  | cons a as ih =>
    by_cases ha : p a = true
    · exact ⟨[], a, as, rfl, by simp, ha⟩
    · have ha' : p a = false := by simpa using ha
      obtain ⟨x, hx, hpx⟩ := h
      have hx' : x ∈ as := by
        rcases List.mem_cons.mp hx with rfl | hx
        · rw [ha'] at hpx; cases hpx
        · exact hx
      obtain ⟨pre, c, post, h1, h2, h3⟩ := ih ⟨x, hx', hpx⟩
      refine ⟨a :: pre, c, post, by simp [h1], ?_, h3⟩
      intro y hy
      rcases List.mem_cons.mp hy with rfl | hy
      · exact ha'
      · exact h2 y hy

/-- Two patterns of the FTP registry that match the same words are the same pattern. -/
theorem ftp_commands_unique (words : List CStr) (c1 c2 : Command FTPHandler)
    (h1 : c1 ∈ ftp_commands) (h2 : c2 ∈ ftp_commands)
    (m1 : pattern_matches c1 words = true) (m2 : pattern_matches c2 words = true) :
    c1.action = c2.action ∧ c1.tokens = c2.tokens := by
  have hlit : ∀ c ∈ ftp_commands, (c.tokens.head?.bind Token.literal).isSome = true := by
    decide
  have hkey : ∀ a ∈ ftp_commands, ∀ b ∈ ftp_commands,
      a.tokens.length = b.tokens.length → first_literal a = first_literal b →
      a.action = b.action ∧ a.tokens = b.tokens := by
    decide
  obtain ⟨l1, f1⟩ := pattern_matches_key c1 words m1
  obtain ⟨l2, f2⟩ := pattern_matches_key c2 words m2
  exact hkey c1 h1 c2 h2 (by omega) (by rw [f1 (hlit c1 h1), f2 (hlit c2 h2)])

/-- The handlers dispatched over the patterns `cmds`, when no pattern raises: the
handler of the first pattern that matches, or none. -/
theorem dispatched_handlers_eq {H : Type} (env : Env H) (cmds : List (Command H))
    (words : List CStr) (hno : pattern_raised (try_execute env cmds words) = false) :
    ((∀ c ∈ cmds, pattern_matches c words = false) →
      dispatched_handlers (try_execute env cmds words) = []) ∧
    ((∃ c ∈ cmds, pattern_matches c words = true) →
      ∃ c ∈ cmds, pattern_matches c words = true ∧
        dispatched_handlers (try_execute env cmds words) = [c.action]) := by
  have hspec := try_execute_loop_spec env cmds words (List.replicate 10 env.default_parameter)
    (by simp) hno
  constructor
  · intro hnone
    unfold dispatched_handlers try_execute
    rw [hspec.1 hnone]; rfl
  · intro hsome
    obtain ⟨pre, c, post, e1, e2, e3⟩ := first_match_split (fun c => pattern_matches c words)
      cmds hsome
    obtain ⟨pms, _, _, hrun⟩ := hspec.2 pre c post e1 e2 e3
    refine ⟨c, by rw [e1]; simp, e3, ?_⟩
    unfold dispatched_handlers try_execute
    rw [hrun]; rfl

/-- C19: the nine patterns registered by FTPCommandInterpreter are unambiguous: for
every word sequence at most one of them matches; hence, whenever no pattern raises
an error, the handler that is dispatched is the same for every registration order of
the nine patterns. -/
theorem ftp_commands_unambiguous :
    (∀ (words : List CStr) (c1 c2 : Command FTPHandler), c1 ∈ ftp_commands → c2 ∈ ftp_commands →
      pattern_matches c1 words = true → pattern_matches c2 words = true →
      c1.action = c2.action ∧ c1.tokens = c2.tokens) ∧
    (∀ (env : Env FTPHandler) (cmds : List (Command FTPHandler)) (words : List CStr),
      cmds.Perm ftp_commands →
      pattern_raised (try_execute env cmds words) = false →
      pattern_raised (try_execute env ftp_commands words) = false →
      dispatched_handlers (try_execute env cmds words)
        = dispatched_handlers (try_execute env ftp_commands words)) := by
  refine ⟨fun words c1 c2 h1 h2 m1 m2 => ftp_commands_unique words c1 c2 h1 h2 m1 m2, ?_⟩
  intro env cmds words hperm hno1 hno2
  obtain ⟨a1, a2⟩ := dispatched_handlers_eq env cmds words hno1
  obtain ⟨b1, b2⟩ := dispatched_handlers_eq env ftp_commands words hno2
  by_cases hsome : ∃ c ∈ ftp_commands, pattern_matches c words = true
  · have hsome' : ∃ c ∈ cmds, pattern_matches c words = true := by
      obtain ⟨c, hc, hm⟩ := hsome
      exact ⟨c, hperm.mem_iff.mpr hc, hm⟩
    obtain ⟨c, hc, hm, hd⟩ := a2 hsome'
    obtain ⟨c', hc', hm', hd'⟩ := b2 hsome
    rw [hd, hd', (ftp_commands_unique words c c' (hperm.mem_iff.mp hc) hc' hm hm').1]
  · have hnone : ∀ c ∈ ftp_commands, pattern_matches c words = false := by
      intro c hc
      cases hm : pattern_matches c words with
      | false => rfl
      | true => exact absurd ⟨c, hc, hm⟩ hsome
    rw [a1 (fun c hc => hnone c (hperm.mem_iff.mp hc)), b1 hnone]

/-- C19 (witness): with the registry reversed, the words of "list a" still reach `cmd_list1`. -/
theorem ftp_commands_unambiguous_witness :
    dispatched_handlers
        (try_execute (env_returning FTPHandler) ftp_commands.reverse ["list".toList, "a".toList])
      = [FTPHandler.cmd_list1] :=
  (ftp_commands_unambiguous.2 (env_returning FTPHandler) ftp_commands.reverse
    ["list".toList, "a".toList] (List.reverse_perm _) (by decide) (by decide)).trans (by decide)

/-! ## The session: login, list, stor, retr -/

/-- A response of one line within the line buffer, with a space as fourth character:
`recv_response` takes the line and returns the code of its first three characters. -/
theorem recv_response_line (l rest : List Char) (hl : '\n' ∉ l) (hfit : l.length ≤ 2046)
    (h4 : l.getD 3 '\x00' = ' ') :
    recv_response (l ++ '\n' :: rest)
      = ([c_str (l ++ ['\n'])], .ok (response_code_to_int l, rest)) := by
  match l, h4 with
  | a :: b :: c :: d :: t, h4 =>
    simp only [List.getD_cons_succ, List.getD_cons_zero] at h4
    subst h4
    unfold recv_response
    simp only
    rw [read_line_spec _ rest _ hl
      (by rw [List.length_replicate]; unfold LINE_BUFFER_SIZE; omega)]
    have hcs := c_str_line (a :: b :: c :: ' ' :: t)
      (List.drop ((a :: b :: c :: ' ' :: t).length + 2) (List.replicate LINE_BUFFER_SIZE '\x00'))
    simp only [List.cons_append] at hcs ⊢
    simp only [List.getD_cons_succ, List.getD_cons_zero, if_true, response_code_to_int, hcs]
  | [], h4 => simp at h4
  | [_], h4 => simp at h4
  | [_, _], h4 => simp at h4
  | [_, _, _], h4 => simp at h4

/-- The method `send_command` when a response arrives: the command is sent, the code is
returned, the last line read stays in the line buffer. -/
theorem send_command_ok (command : CStr) (s : FTPState) (lines : List CStr) (code : Int)
    (rest : List Char) (h : recv_response s.control = (lines, .ok (code, rest))) :
    send_command command s
      = (.ok code, { s with
          sent := s.sent ++ [command ++ ['\r', '\n']],
          control := rest,
          line_buffer := lines.getLastD s.line_buffer }) := by
  unfold send_command recv_response_session
  simp only [h]

/-- The method `send_command` when reading the response fails: the command has been
sent all the same. -/
theorem send_command_error (command : CStr) (s : FTPState) (lines : List CStr) (e : Err)
    (h : recv_response s.control = (lines, .error e)) :
    send_command command s
      = (.error e, { s with
          sent := s.sent ++ [command ++ ['\r', '\n']],
          control := [],
          line_buffer := lines.getLastD s.line_buffer }) := by
  unfold send_command recv_response_session
  simp only [h]

/-- On a connected session `login` does not reconnect. -/
theorem login_of_connected (user pass : CStr) (s : FTPState) (hc : s.connected = true) :
    login user pass s
      = match send_command ("USER ".toList ++ user) s with
        | (.error e, s) => (.error e, s)
        | (.ok code, s) =>
          if code ≠ 331 then (.error .login_failed, s)
          else
            match send_command ("PASS ".toList ++ pass) s with
            | (.error e, s) => (.error e, s)
            | (.ok code, s) =>
              if code ≠ 230 then (.error .login_failed, s) else (.ok (), s) := by
  unfold login
  rw [hc]
  rfl

/-- C13: on a connected session `login(user, pass)` first sends "USER user"; when the
reply code is not 331 it fails with "login failed" and PASS is not sent; when it is
331 it sends "PASS pass" and succeeds if and only if the code of the next reply is
230, failing with "login failed" on any other code. -/
theorem login_connected (user pass : CStr) (s : FTPState) (hc : s.connected = true) :
    (∃ more, (login user pass s).2.sent
        = s.sent ++ ("USER ".toList ++ user ++ ['\r', '\n']) :: more) ∧
    (∀ lines code rest, recv_response s.control = (lines, .ok (code, rest)) →
      (code ≠ 331 →
        (login user pass s).1 = .error .login_failed ∧
        (login user pass s).2.sent = s.sent ++ ["USER ".toList ++ user ++ ['\r', '\n']]) ∧
      (code = 331 →
        (login user pass s).2.sent
          = s.sent ++ ["USER ".toList ++ user ++ ['\r', '\n'],
              "PASS ".toList ++ pass ++ ['\r', '\n']] ∧
        ((login user pass s).1 = .ok ()
          ↔ ∃ lines2 rest2, recv_response rest = (lines2, .ok (230, rest2))) ∧
        (∀ lines2 code2 rest2, recv_response rest = (lines2, .ok (code2, rest2)) →
          code2 ≠ 230 → (login user pass s).1 = .error .login_failed))) := by
  rw [login_of_connected user pass s hc]
  rcases h1 : recv_response s.control with ⟨lines, (e | ⟨code, rest⟩)⟩
  · rw [send_command_error _ _ _ _ h1]
    simp
  · rw [send_command_ok _ _ _ _ _ h1]
    by_cases hcode : code = 331
    · subst hcode
      simp only [ne_eq, not_true_eq_false, if_false]
      rcases h2 : recv_response rest with ⟨lines2, (e2 | ⟨code2, rest2⟩)⟩
      · rw [send_command_error _ _ lines2 e2 h2]
        simp [h2]
      · rw [send_command_ok _ _ lines2 code2 rest2 h2]
        by_cases hcode2 : code2 = 230
        · subst hcode2; simp [h2]
        · simp [hcode2, h2]
    · simp [hcode]

/-- The two examples of C13: for `login("anon", "pw")`, replies 331 then 230 give
success with USER and PASS sent; a reply 530 at the USER step gives "login failed"
with USER the only command sent. -/
theorem login_connected_witness :
    ((login "anon".toList "pw".toList (session "331 ok\n230 ok\n" "")).1 = .ok () ∧
      (login "anon".toList "pw".toList (session "331 ok\n230 ok\n" "")).2.sent
        = ["USER anon\r\n".toList, "PASS pw\r\n".toList]) ∧
    ((login "anon".toList "pw".toList (session "530 no\n" "")).1 = .error .login_failed ∧
      (login "anon".toList "pw".toList (session "530 no\n" "")).2.sent
        = ["USER anon\r\n".toList]) := by
  have h1 := (login_connected "anon".toList "pw".toList (session "331 ok\n230 ok\n" "") rfl).2
    _ 331 "230 ok\n".toList
    (recv_response_line "331 ok".toList "230 ok\n".toList (by decide) (by decide) (by decide))
  have h2 := (login_connected "anon".toList "pw".toList (session "530 no\n" "") rfl).2
    _ 530 []
    (recv_response_line "530 no".toList [] (by decide) (by decide) (by decide))
  refine ⟨⟨?_, ?_⟩, ?_⟩
  · exact (h1.2 rfl).2.1.mpr
      ⟨_, [], recv_response_line "230 ok".toList [] (by decide) (by decide) (by decide)⟩
  · exact (h1.2 rfl).1
  · exact h2.1 (by decide)

/-- Draining the data transport: with fuel for every byte, `data_recv_all` leaves
nothing in the transport and appends all of it to the buffer. -/
theorem data_recv_all_drains (fuel : Nat) (data_in buffer : List Char)
    (h : data_in.length ≤ fuel) : data_recv_all fuel data_in buffer = ([], buffer ++ data_in) := by
  induction fuel generalizing data_in buffer with
  | zero =>
    have : data_in = [] := List.length_eq_zero.mp (by omega)
    subst this
    simp [data_recv_all]
  | succ n ih =>
    unfold data_recv_all
    cases data_in with
    | nil => simp
    | cons c cs =>
      have hpos : (List.take 1024 (c :: cs)).length > 0 := by
        simp only [List.length_take, List.length_cons]; omega
      rw [if_pos hpos, ih _ _ (by simp only [List.length_drop, List.length_cons] at h ⊢; omega)]
      rw [List.append_assoc, List.take_append_drop]

/-- After the receive loop and `data_port.close()` the data transport is closed, an
open one has been read to its end, and the control transport is untouched. -/
theorem data_drain_and_close_closed (s : FTPState) :
    (data_drain_and_close s).1.data_open = false ∧
    (s.data_open = true →
      (data_drain_and_close s).1.data_in = [] ∧ (data_drain_and_close s).2 = s.data_in) ∧
    (data_drain_and_close s).1.control = s.control := by
  unfold data_drain_and_close data_close
  by_cases h : s.data_open = true
  · simp [h, data_recv_all_drains s.data_in.length s.data_in [] (le_refl _)]
  · simp [h]

/-- The final test of a transfer: success exactly on a response with code 226,
"Failed transfer" on any other code; the data transport is not touched. -/
theorem expect_226_spec (s : FTPState) :
    ((expect_226 s).1 = .ok ()
      ↔ ∃ lines rest, recv_response s.control = (lines, .ok (226, rest))) ∧
    (∀ lines code rest, recv_response s.control = (lines, .ok (code, rest)) → code ≠ 226 →
      (expect_226 s).1 = .error .failed_transfer) ∧
    (expect_226 s).2.data_open = s.data_open ∧ (expect_226 s).2.data_in = s.data_in := by
  unfold expect_226 recv_response_session
  rcases h : recv_response s.control with ⟨lines, (e | ⟨code, rest⟩)⟩
  · simp
  · by_cases hc : code = 226
    · subst hc; simp
    · simp [hc]

/-- The operation `list` after a reply other than 150 to LIST: "Failed", with the data
transport left as it was. -/
theorem list_not_150 (path : Option CStr) (s : FTPState) (lines : List CStr) (code : Int)
    (rest : List Char) (h : recv_response s.control = (lines, .ok (code, rest)))
    (hc : code ≠ 150) :
    (list path s).1 = .error .failed ∧ (list path s).2.data_open = s.data_open := by
  unfold list
  dsimp only
  rw [send_command_ok _ _ _ _ _ h]
  simp [hc]

/-- The operation `stor` of a readable file after a reply other than 150 to STOR:
"Failed", with the data transport left as it was. -/
theorem stor_not_150 (path : CStr) (s : FTPState) (buffer : List Char)
    (hf : vfs_read s.files path = .ok buffer) (lines : List CStr) (code : Int)
    (rest : List Char) (h : recv_response s.control = (lines, .ok (code, rest)))
    (hc : code ≠ 150) :
    (stor path s).1 = .error .failed ∧ (stor path s).2.data_open = s.data_open := by
  unfold stor
  rw [hf]
  simp only
  rw [send_command_ok _ _ _ _ _ h]
  simp [hc]

/-- The operation `retr` after a reply other than 150 to RETR: "Failed", with the data
transport left as it was. -/
theorem retr_not_150 (path : CStr) (s : FTPState) (lines : List CStr) (code : Int)
    (rest : List Char) (h : recv_response s.control = (lines, .ok (code, rest)))
    (hc : code ≠ 150) :
    (retr path s).1 = .error .failed ∧ (retr path s).2.data_open = s.data_open := by
  unfold retr
  rw [send_command_ok _ _ _ _ _ h]
  simp [hc]

/-- The operation `list` after a reply 150 to LIST: the data transport is drained and
closed, the received bytes are handed to `printf` as its format, then the final
response is read. -/
theorem list_150 (path : Option CStr) (s : FTPState) (lines : List CStr)
    (rest : List Char) (h : recv_response s.control = (lines, .ok (150, rest))) :
    ∃ s1 : FTPState, s1.control = rest ∧ s1.data_open = s.data_open ∧ s1.data_in = s.data_in ∧
      list path s
        = match printf (c_str (data_drain_and_close s1).2) with
          | .error e => (.error e, (data_drain_and_close s1).1)
          | .ok _ => expect_226 (data_drain_and_close s1).1 := by
  unfold list
  dsimp only
  rw [send_command_ok _ _ _ _ _ h]
  refine ⟨_, ?_, ?_, ?_, if_neg (by simp)⟩ <;> rfl

/-- What `data_drain_and_close` hands on as received bytes: all of the data transport
when it was open, nothing otherwise. -/
theorem data_drain_and_close_bytes (s : FTPState) :
    (data_drain_and_close s).2 = if s.data_open then s.data_in else [] := by
  unfold data_drain_and_close
  by_cases h : s.data_open = true
  · simp [h, data_recv_all_drains s.data_in.length s.data_in [] (le_refl _)]
  · simp [h]

/-- The operation `list` after a reply 150, when the listing received on an open data
transport holds a conversion specification: `printf` is undefined on it, with the data
transport closed and the final reply still unread. -/
theorem list_printf_undefined (path : Option CStr) (s : FTPState) (lines : List CStr)
    (rest : List Char) (h : recv_response s.control = (lines, .ok (150, rest)))
    (hopen : s.data_open = true) (e : Err) (hp : printf (c_str s.data_in) = .error e) :
    (list path s).1 = .error e ∧ (list path s).2.control = rest ∧
      (list path s).2.data_open = false := by
  obtain ⟨s1, hs1, ho, hi, hl⟩ := list_150 path s lines rest h
  obtain ⟨hd1, -, hd3⟩ := data_drain_and_close_closed s1
  rw [hl, data_drain_and_close_bytes, ho, hopen, hi]
  simp only [if_true, hp]
  exact ⟨trivial, by rw [hd3, hs1], hd1⟩

/-- The operation `list` when `printf` is defined on the listing (it holds no `'%'`
other than in "%%"): `list` succeeds if and only if the reply to LIST has code 150 and
the next control reply has code 226; after a reply 150 the data transport is drained
(when it was open) and closed before that next reply is read, and any other code in it
makes `list` fail with "Failed transfer". -/
theorem list_of_printf_ok (path : Option CStr) (s : FTPState)
    (hp : s.data_open = true → printf (c_str s.data_in) = .ok ()) :
    ((list path s).1 = .ok ()
      ↔ ∃ lines1 rest1 lines2 rest2, recv_response s.control = (lines1, .ok (150, rest1)) ∧
          recv_response rest1 = (lines2, .ok (226, rest2))) ∧
    (∀ lines1 rest1, recv_response s.control = (lines1, .ok (150, rest1)) →
      (list path s).2.data_open = false ∧
      (s.data_open = true → (list path s).2.data_in = []) ∧
      ∀ lines2 code2 rest2, recv_response rest1 = (lines2, .ok (code2, rest2)) →
        code2 ≠ 226 → (list path s).1 = .error .failed_transfer) := by
  have hok : ∀ s1 : FTPState, s1.data_open = s.data_open → s1.data_in = s.data_in →
      printf (c_str (data_drain_and_close s1).2) = .ok () := by
    intro s1 ho hi
    rw [data_drain_and_close_bytes, ho, hi]
    by_cases hopen : s.data_open = true
    · rw [if_pos hopen]; exact hp hopen
    · rw [if_neg hopen]; rfl
  constructor
  · rcases h : recv_response s.control with ⟨lines, (e | ⟨code, rest⟩)⟩
    · have : (list path s).1 = .error e := by
        unfold list
        dsimp only
        rw [send_command_error _ _ _ _ h]
      rw [this]
      simp
    · by_cases hc : code = 150
      · subst hc
        obtain ⟨s1, hs1, ho, hi, hl⟩ := list_150 path s lines rest h
        obtain ⟨hd1, -, hd3⟩ := data_drain_and_close_closed s1
        rw [hl, hok s1 ho hi]
        simp only
        rw [(expect_226_spec _).1, hd3, hs1]
        constructor
        · rintro ⟨l2, r2, h2⟩
          exact ⟨lines, rest, l2, r2, rfl, h2⟩
        · rintro ⟨l1, r1, l2, r2, h1, h2⟩
          simp only [Prod.mk.injEq, Except.ok.injEq, true_and] at h1
          obtain ⟨-, rfl⟩ := h1
          exact ⟨l2, r2, h2⟩
      · rw [(list_not_150 path s lines code rest h hc).1]
        simp [hc]
  · intro lines1 rest1 h
    obtain ⟨s1, hs1, ho, hi, hl⟩ := list_150 path s lines1 rest1 h
    obtain ⟨hd1, hd2, hd3⟩ := data_drain_and_close_closed s1
    obtain ⟨-, he2, he3, he4⟩ := expect_226_spec (data_drain_and_close s1).1
    rw [hl, hok s1 ho hi]
    simp only
    refine ⟨by rw [he3, hd1], fun hopen => by rw [he4]; exact (hd2 (by rw [ho, hopen])).1, ?_⟩
    intro lines2 code2 rest2 h2 hc2
    exact he2 lines2 code2 rest2 (by rw [hd3, hs1]; exact h2) hc2

/-- C14, as the code stands: with the data transport open after `pasv` and the reply
"550 no" to the command, each of `list`, `stor "f"` and `retr "f"` ends with "Failed"
and the data transport still open; `stor` of a file that cannot be read ends with the
data transport closed. -/
theorem data_transport_left_open :
    ((list none (session "550 no\n" "data")).1 = .error .failed ∧
      (list none (session "550 no\n" "data")).2.data_open = true) ∧
    ((stor "f".toList (session "550 no\n" "data")).1 = .error .failed ∧
      (stor "f".toList (session "550 no\n" "data")).2.data_open = true) ∧
    ((retr "f".toList (session "550 no\n" "data")).1 = .error .failed ∧
      (retr "f".toList (session "550 no\n" "data")).2.data_open = true) ∧
    ((stor "g".toList (session "550 no\n" "data")).1 = .error .file_read_failed ∧
      (stor "g".toList (session "550 no\n" "data")).2.data_open = false) := by
  have h := recv_response_line "550 no".toList [] (by decide) (by decide) (by decide)
  exact ⟨list_not_150 none (session "550 no\n" "data") _ 550 [] h (by decide),
    stor_not_150 "f".toList (session "550 no\n" "data") "abc".toList rfl _ 550 [] h (by decide),
    retr_not_150 "f".toList (session "550 no\n" "data") _ 550 [] h (by decide),
    by decide⟩

/-- C15, as the code stands: LIST is answered 150 and the final reply is 226, and the
data transport yields the listing "%s": `list` hands the listing to `printf` as its
format string, which is undefined on the conversion "%s", and does not succeed; the
226 reply is left unread. With the listing "a.txt" the same replies make `list`
succeed, and the replies 150 then 426 make it fail with "Failed transfer". -/
theorem list_listing_as_format :
    (∃ lines, recv_response "150 go\n226 ok\n".toList
      = (lines, .ok (150, "226 ok\n".toList))) ∧
    (∃ lines, recv_response "226 ok\n".toList = (lines, .ok (226, []))) ∧
    ((list none (session "150 go\n226 ok\n" "%s\n")).1 = .error .printf_undefined ∧
      (list none (session "150 go\n226 ok\n" "%s\n")).2.control = "226 ok\n".toList) ∧
    (list none (session "150 go\n226 ok\n" "a.txt\n")).1 = .ok () ∧
    (list none (session "150 go\n426 no\n" "a.txt\n")).1 = .error .failed_transfer := by
  have h150 : ∀ rest, recv_response ("150 go".toList ++ '\n' :: rest)
      = ([c_str ("150 go".toList ++ ['\n'])], .ok (150, rest)) := fun rest =>
    recv_response_line "150 go".toList rest (by decide) (by decide) (by decide)
  have h226 := recv_response_line "226 ok".toList [] (by decide) (by decide) (by decide)
  have h426 := recv_response_line "426 no".toList [] (by decide) (by decide) (by decide)
  refine ⟨⟨_, h150 _⟩, ⟨_, h226⟩, ?_, ?_, ?_⟩
  · have h := list_printf_undefined none (session "150 go\n226 ok\n" "%s\n") _ _
      (h150 "226 ok\n".toList) rfl .printf_undefined (by decide)
    exact ⟨h.1, h.2.1⟩
  · exact (list_of_printf_ok none (session "150 go\n226 ok\n" "a.txt\n")
      (fun _ => by decide)).1.mpr ⟨_, _, _, _, h150 "226 ok\n".toList, h226⟩
  · exact ((list_of_printf_ok none (session "150 go\n426 no\n" "a.txt\n")
      (fun _ => by decide)).2 _ _ (h150 "426 no\n".toList)).2.2 _ 426 [] h426 (by decide)

end FTPClient
